import Mathlib

/-!
# Verification of the FinPyME Pro computation layer

Shallow embedding of the client/server computation code of the FinPyME Pro
financial dashboard, together with proofs about it.

Conventions of the embedding:
* JavaScript numbers are modelled as exact rationals (`ℚ`) extended with the
  special values `Infinity`, `-Infinity` and `NaN` (`JSNum`).  Floating-point
  rounding is not modelled: all arithmetic is exact.
* JavaScript `Date` values are modelled as proleptic-Gregorian civil dates with
  a millisecond-of-day component, in a fixed UTC-like offset (no daylight
  saving jumps).
* Strings passed where the code calls `parseFloat` are parsed by a model of
  JavaScript's `parseFloat` (longest numeric prefix, `NaN` on failure).
-/

namespace FinPyme

/-! ## JavaScript numbers and `parseFloat`
Source: used throughout `client/src/contexts/currency-context.tsx` and the
chart components. -/

/-- A JavaScript number: an exact rational, one of the two infinities, or
`NaN`.  (IEEE-754 rounding and signed zero are not modelled.) -/
inductive JSNum where
  | rat (q : ℚ)
  | inf
  | negInf
  | nan
  deriving DecidableEq, Repr

/-- A value that the currency functions accept: `string | number`. -/
inductive JSVal where
  | str (s : String)
  | num (n : JSNum)

/-- ASCII whitespace skipped by `parseFloat` (the JS spec also skips some
Unicode space characters, which never occur in this repository's inputs). -/
def isSpaceChar (c : Char) : Bool :=
  c == ' ' || c == '\t' || c == '\n' || c == '\r' || c == '\x0b' || c == '\x0c'

/-- The numeric value of a decimal digit character, if it is one. -/
def digitVal (c : Char) : Option ℕ :=
  if '0' ≤ c ∧ c ≤ '9' then some (c.toNat - '0'.toNat) else none

/-- Split a longest run of decimal digits off the front of a character list. -/
def takeDigits : List Char → List ℕ × List Char
  | [] => ([], [])
  | c :: rest =>
    match digitVal c with
    | some d =>
      let p := takeDigits rest
      (d :: p.1, p.2)
    | none => ([], c :: rest)

/-- Value of a digit list, most significant digit first. -/
def digitsToNat (ds : List ℕ) : ℕ :=
  ds.foldl (fun acc d => acc * 10 + d) 0

/-- Consume an optional sign; returns `true` if a minus sign was consumed. -/
def parseSign : List Char → Bool × List Char
  | '-' :: r => (true, r)
  | '+' :: r => (false, r)
  | l => (false, l)

/-- Parse an optional exponent part (`e`/`E`, optional sign, digits).  As in
JS, a dangling `e` with no digits contributes no exponent. -/
def parseExponent (l : List Char) : ℤ :=
  match l with
  | c :: rest =>
    if c == 'e' || c == 'E' then
      let p := parseSign rest
      let d := takeDigits p.2
      if d.1.isEmpty then 0
      else if p.1 then -(digitsToNat d.1 : ℤ) else (digitsToNat d.1 : ℤ)
    else 0
  | [] => 0

/-- Model of JavaScript `parseFloat` on a character list: skip whitespace,
optional sign, then the longest prefix that is `Infinity` or a decimal
literal; `NaN` when no such prefix exists. -/
def parseFloatChars (l : List Char) : JSNum :=
  let l1 := l.dropWhile isSpaceChar
  let ps := parseSign l1
  if ps.2.take 8 = "Infinity".data then
    if ps.1 then .negInf else .inf
  else
    let ip := takeDigits ps.2
    match ip.2 with
    | '.' :: l2 =>
      let fp := takeDigits l2
      if ip.1.isEmpty ∧ fp.1.isEmpty then .nan
      else
        let e := parseExponent fp.2
        let mag : ℚ :=
          ((digitsToNat ip.1 : ℚ) + (digitsToNat fp.1 : ℚ) / 10 ^ fp.1.length) * (10 : ℚ) ^ e
        .rat (if ps.1 then -mag else mag)
    | rest =>
      if ip.1.isEmpty then .nan
      else
        let e := parseExponent rest
        let mag : ℚ := (digitsToNat ip.1 : ℚ) * (10 : ℚ) ^ e
        .rat (if ps.1 then -mag else mag)

/-- Model of JavaScript `parseFloat` on a string. -/
def jsParseFloat (s : String) : JSNum :=
  parseFloatChars s.data

/-- Coercion applied by the currency functions:
`typeof amount === 'string' ? parseFloat(amount) : amount`. -/
def toNumber : JSVal → JSNum
  | .str s => jsParseFloat s
  | .num n => n

/-- `Math.abs` on a JS number. -/
def jsAbs : JSNum → JSNum
  | .rat q => .rat |q|
  | .inf => .inf
  | .negInf => .inf
  | .nan => .nan

/-- Multiplication of JS numbers (`Infinity * 0` is `NaN`). -/
def jsMul : JSNum → JSNum → JSNum
  | .nan, _ => .nan
  | _, .nan => .nan
  | .rat a, .rat b => .rat (a * b)
  | .rat a, .inf => if a = 0 then .nan else if 0 < a then .inf else .negInf
  | .rat a, .negInf => if a = 0 then .nan else if 0 < a then .negInf else .inf
  | .inf, .rat b => if b = 0 then .nan else if 0 < b then .inf else .negInf
  | .negInf, .rat b => if b = 0 then .nan else if 0 < b then .negInf else .inf
  | .inf, .inf => .inf
  | .inf, .negInf => .negInf
  | .negInf, .inf => .negInf
  | .negInf, .negInf => .inf

/-- Division of JS numbers.  Division by zero would be `±Infinity` (or `NaN`
for `0/0`) in JS with signed zeros; the source guards every division with a
non-zero check, so that case is unreachable here and mapped to `NaN`. -/
def jsDiv : JSNum → JSNum → JSNum
  | .nan, _ => .nan
  | _, .nan => .nan
  | .rat a, .rat b => if b = 0 then .nan else .rat (a / b)
  | .inf, .rat b => if b = 0 then .nan else if 0 < b then .inf else .negInf
  | .negInf, .rat b => if b = 0 then .nan else if 0 < b then .negInf else .inf
  | .rat _, .inf => .rat 0
  | .rat _, .negInf => .rat 0
  | .inf, .inf => .nan
  | .inf, .negInf => .nan
  | .negInf, .inf => .nan
  | .negInf, .negInf => .nan

/-! ## Currency Conversion Service
Source: `client/src/contexts/currency-context.tsx`, `convertAmount`
(lines 147-169) and `formatAmount` (lines 124-145). -/

/-- The two display currencies supported by the context. -/
inductive Currency where
  | ARS
  | USD
  deriving DecidableEq, Repr

/-- `convertAmount(amount, fromCurrency, toCurrency)` closed over the current
`exchangeRate`.  Mirrors the source: NaN input or a falsy (zero) rate yields
`0`; identical currencies are the identity; ARS→USD divides by the rate;
USD→ARS multiplies by it; any other pair falls through unchanged (unreachable
with two currencies). -/
def convertAmount (amount : JSVal) (fromCurrency toCurrency : Currency)
    (exchangeRate : ℚ) : JSNum :=
  let numericAmount := toNumber amount
  if numericAmount = .nan ∨ exchangeRate = 0 then .rat 0
  else if fromCurrency = toCurrency then numericAmount
  else if fromCurrency = .ARS ∧ toCurrency = .USD then
    jsDiv numericAmount (.rat exchangeRate)
  else if fromCurrency = .USD ∧ toCurrency = .ARS then
    jsMul numericAmount (.rat exchangeRate)
  else numericAmount

/-- Round half away from zero, as `Intl.NumberFormat`'s default
`halfExpand` rounding does. -/
def roundHalfExpand (q : ℚ) : ℤ :=
  if 0 ≤ q then ⌊q + 1 / 2⌋ else -⌊-q + 1 / 2⌋

/-- Group the decimal digits of a reversed digit list into blocks of three
(used for the `es-AR` thousands separator `.`). -/
def chunksOf3 : List Char → List (List Char)
  | [] => []
  | [a] => [[a]]
  | [a, b] => [[a, b]]
  | a :: b :: c :: rest => [a, b, c] :: chunksOf3 rest

/-- Decimal digit characters of a natural number, most significant first. -/
def natDigits (n : ℕ) : List Char :=
  (Nat.toDigits 10 n)

/-- Format a non-negative integer with `es-AR` thousands grouping
(`1234567` ↦ `"1.234.567"`). -/
def groupThousands (n : ℕ) : String :=
  let rev := (natDigits n).reverse
  let blocks := (chunksOf3 rev).map List.reverse
  String.mk (List.intercalate ['.'] blocks.reverse)

/-- Left-pad a digit string with zeros to a given width. -/
def padZeros (s : List Char) (d : ℕ) : List Char :=
  List.replicate (d - s.length) '0' ++ s

/-- Model of `Intl.NumberFormat('es-AR', { style: 'decimal', ... })` applied
to a rational, with `d` fraction digits: thousands separated by `.`, decimal
comma, rounding half away from zero. -/
def intlFormatRat (q : ℚ) (d : ℕ) : String :=
  let sign := if q < 0 then "-" else ""
  let scaled := (roundHalfExpand (|q| * 10 ^ d)).toNat
  let intPart := scaled / 10 ^ d
  let fracPart := scaled % 10 ^ d
  if d = 0 then sign ++ groupThousands intPart
  else sign ++ groupThousands intPart ++ "," ++ String.mk (padZeros (natDigits fracPart) d)

/-- Model of the locale formatter on a JS number (`Infinity` renders as `∞`,
`NaN` as `NaN`, as `Intl.NumberFormat` does). -/
def intlFormat (n : JSNum) (d : ℕ) : String :=
  match n with
  | .rat q => intlFormatRat q d
  | .inf => "∞"
  | .negInf => "-∞"
  | .nan => "NaN"

/-- The state of the currency context that `formatAmount` closes over. -/
structure CurrencyState where
  currency : Currency
  exchangeRate : ℚ

/-- `formatAmount(amount, showSymbol)`: parse, return `"0"` on NaN, convert to
USD when displaying USD (rate truthy), format the absolute value with 0 (ARS)
or 2 (USD) fraction digits, then optionally add symbol and currency code. -/
def formatAmount (st : CurrencyState) (amount : JSVal) (showSymbol : Bool) : String :=
  let numericAmount := toNumber amount
  if numericAmount = .nan then "0"
  else
    let converted :=
      if st.currency = .USD ∧ st.exchangeRate ≠ 0 then
        jsDiv numericAmount (.rat st.exchangeRate)
      else numericAmount
    let digits : ℕ := if st.currency = .USD then 2 else 0
    let formatted := intlFormat (jsAbs converted) digits
    let currencyCode := if st.currency = .USD then " USD" else " ARS"
    if showSymbol then "$" ++ formatted ++ currencyCode else formatted

/-! ## Chart Value Scaler
Source: the chart formatting utilities (`determineScale`, lines 12-22 of the
formatter module). -/

/-- The display scale chosen for a chart series. -/
inductive ChartScale where
  | units
  | thousands
  | millions
  deriving DecidableEq, Repr

/-- The `maxValue` constant of `determineScale`: `Math.max` over the absolute
values, which is `-Infinity` for an empty list — modelled by folding `max`
over `WithBot ℚ` from `⊥`. -/
def maxAbsValue (values : List ℚ) : WithBot ℚ :=
  (values.map (fun v => ((|v| : ℚ) : WithBot ℚ))).foldr max ⊥

/-- `determineScale(values)`: thresholds the maximum absolute value at one
million and one thousand (both comparisons are false for `-Infinity`). -/
def determineScale (values : List ℚ) : ChartScale :=
  if ((1000000 : ℚ) : WithBot ℚ) ≤ maxAbsValue values then .millions
  else if ((1000 : ℚ) : WithBot ℚ) ≤ maxAbsValue values then .thousands
  else .units

/-! ## Auth middleware and per-user routes
Source: `server/routes.ts` (route registrations) and the auth middleware
(`authenticateToken`, `optionalAuth`).  Tokens are abstracted to their
verification outcome: absent, invalid, or valid for a given user id. -/

/-- The state of the `Authorization` header of a request, abstracted to the
outcome of `verifyToken`. -/
inductive TokenState where
  | missing
  | invalid
  | valid (userId : String)
  deriving DecidableEq

/-- An HTTP response, carrying the status code, and — when the handler served
a user's resource data — whose data was served. -/
structure ApiResponse where
  status : ℕ
  dataOf : Option String
  deriving DecidableEq

/-- `authenticateToken` middleware: 401 when no token, 403 when the token does
not verify, otherwise passes the token's user id to the handler. -/
def runAuthenticateToken : TokenState → Except ApiResponse String
  | .missing => .error ⟨401, none⟩
  | .invalid => .error ⟨403, none⟩
  | .valid u => .ok u

/-- `optionalAuth` middleware: never rejects; records the user id when a valid
token is present. -/
def runOptionalAuth : TokenState → Option String
  | .valid u => some u
  | _ => none

/-- `GET /api/transactions/:userId`: `optionalAuth`, then the handler serves
`storage.getUserTransactions(userId)` with no ownership check. -/
def getTransactionsRoute (t : TokenState) (userId : String) : ApiResponse :=
  let _reqUser := runOptionalAuth t
  ⟨200, some userId⟩

/-- `GET /api/dashboard/:userId`: `optionalAuth`, then the handler serves the
dashboard aggregates for `userId` with no ownership check. -/
def getDashboardRoute (t : TokenState) (userId : String) : ApiResponse :=
  let _reqUser := runOptionalAuth t
  ⟨200, some userId⟩

/-- `GET /api/ai-insights/:userId`: `optionalAuth`, then the handler serves
`storage.getUserAiInsights(userId)` with no ownership check. -/
def getAiInsightsRoute (t : TokenState) (userId : String) : ApiResponse :=
  let _reqUser := runOptionalAuth t
  ⟨200, some userId⟩

/-- `GET /api/notifications/:userId`: `authenticateToken`, then the handler
returns 403 unless the token's user id equals `:userId`, else serves the
notifications. -/
def getNotificationsRoute (t : TokenState) (userId : String) : ApiResponse :=
  match runAuthenticateToken t with
  | .error r => r
  | .ok reqUserId => if reqUserId ≠ userId then ⟨403, none⟩ else ⟨200, some userId⟩

/-! ## JavaScript `Date` model

Proleptic-Gregorian civil dates.  A date is a month index `mi = 12 * year +
month` (month `0`–`11`, as `getMonth` returns), a 1-based day of month, and a
millisecond-of-day.  `getTime` is recovered as `ts`.  Out-of-range day values
(as produced by `setDate`/`setMonth` overflow) are normalized by carrying
whole months exactly as JS does.  A fixed UTC-like offset is assumed (no
daylight-saving discontinuities). -/

/-- Gregorian leap-year test. -/
def isLeapYear (y : ℤ) : Bool :=
  (y % 4 == 0 && y % 100 != 0) || y % 400 == 0

/-- The year of a month index (`getFullYear`). -/
def yearOf (mi : ℤ) : ℤ := mi / 12

/-- The month-in-year of a month index (`getMonth`, `0`–`11`). -/
def monthInYear (mi : ℤ) : ℤ := mi % 12

/-- Length of month `m` (`0`–`11`) in a leap or non-leap year. -/
def monthLength (leap : Bool) (m : ℤ) : ℤ :=
  if m = 1 then (if leap then 29 else 28)
  else if m = 3 ∨ m = 5 ∨ m = 8 ∨ m = 10 then 30
  else 31

/-- Number of days in the month with month index `mi`. -/
def daysInMonth (mi : ℤ) : ℤ :=
  monthLength (isLeapYear (yearOf mi)) (monthInYear mi)

/-- Days before month `m` (`0`–`11`) within a non-leap year. -/
def daysBeforeMonth (m : ℤ) : ℤ :=
  if m ≤ 0 then 0
  else if m = 1 then 31
  else if m = 2 then 59
  else if m = 3 then 90
  else if m = 4 then 120
  else if m = 5 then 151
  else if m = 6 then 181
  else if m = 7 then 212
  else if m = 8 then 243
  else if m = 9 then 273
  else if m = 10 then 304
  else 334

/-- Number of leap years in `[0, y)` (negative for negative `y`). -/
def leapCount (y : ℤ) : ℤ :=
  (y + 3) / 4 - (y + 99) / 100 + (y + 399) / 400

/-- Day number (days since 0000-03-correct epoch 0000-01-01) of the first day
of the month with month index `mi`. -/
def monthStartDay (mi : ℤ) : ℤ :=
  365 * yearOf mi + leapCount (yearOf mi) + daysBeforeMonth (monthInYear mi) +
    (if isLeapYear (yearOf mi) ∧ 2 ≤ monthInYear mi then 1 else 0)

/-- Borrow whole months while the day-of-month is below 1 (fuel-bounded; the
fuel used by `normalizeMD` always suffices). -/
def borrowSteps : ℕ → ℤ → ℤ → ℤ × ℤ
  | 0, mi, day => (mi, day)
  | n + 1, mi, day =>
    if day < 1 then borrowSteps n (mi - 1) (day + daysInMonth (mi - 1)) else (mi, day)

/-- Carry whole months while the day-of-month exceeds the month length
(fuel-bounded; the fuel used by `normalizeMD` always suffices). -/
def carrySteps : ℕ → ℤ → ℤ → ℤ × ℤ
  | 0, mi, day => (mi, day)
  | n + 1, mi, day =>
    if daysInMonth mi < day then carrySteps n (mi + 1) (day - daysInMonth mi) else (mi, day)

/-- Normalize a (month index, day) pair so that `1 ≤ day ≤ daysInMonth`,
preserving the denoted day, exactly as JS `Date` normalizes out-of-range
fields. -/
def normalizeMD (mi day : ℤ) : ℤ × ℤ :=
  if day < 1 then borrowSteps (1 - day).toNat mi day
  else carrySteps day.toNat mi day

/-- A JS `Date`: month index, day of month (1-based), millisecond of day. -/
structure JSDate where
  mi : ℤ
  day : ℤ
  ms : ℤ
  deriving DecidableEq, Repr

/-- Milliseconds per day (`1000*60*60*24`). -/
def dayMs : ℤ := 86400000

/-- Milliseconds per week (`1000*60*60*24*7`). -/
def weekMs : ℤ := 604800000

/-- `getTime()`: milliseconds since the epoch 0000-01-01T00:00. -/
def ts (d : JSDate) : ℤ :=
  (monthStartDay d.mi + (d.day - 1)) * dayMs + d.ms

/-- A well-formed date: day within the month, millisecond within the day. -/
def ValidDate (d : JSDate) : Prop :=
  1 ≤ d.day ∧ d.day ≤ daysInMonth d.mi ∧ 0 ≤ d.ms ∧ d.ms < dayMs

/-- Build a normalized date from possibly out-of-range month-index/day. -/
def mkDate (mi day ms : ℤ) : JSDate :=
  let p := normalizeMD mi day
  ⟨p.1, p.2, ms⟩

/-- `getFullYear()`. -/
def jsGetFullYear (d : JSDate) : ℤ := yearOf d.mi

/-- `getMonth()` (`0`–`11`). -/
def jsGetMonth (d : JSDate) : ℤ := monthInYear d.mi

/-- `getDate()` (day of month). -/
def jsGetDate (d : JSDate) : ℤ := d.day

/-- `setDate(n)`: replace the day of month (out-of-range values roll over). -/
def jsSetDate (d : JSDate) (n : ℤ) : JSDate := mkDate d.mi n d.ms

/-- `setMonth(m)`: replace the month within the current year (out-of-range
months and resulting day overflow roll over). -/
def jsSetMonth (d : JSDate) (m : ℤ) : JSDate :=
  mkDate (12 * yearOf d.mi + m) d.day d.ms

/-- `setFullYear(y)`: replace the year (day overflow, e.g. Feb 29 in a
non-leap year, rolls over). -/
def jsSetFullYear (d : JSDate) (y : ℤ) : JSDate :=
  mkDate (12 * y + monthInYear d.mi) d.day d.ms

/-! ## Transactions -/

/-- Transaction type (`'income' | 'expense'`). -/
inductive TxType where
  | income
  | expense
  deriving DecidableEq, Repr

/-- A transaction as the chart components consume it.  `amount` is the exact
rational value of the decimal string (the source applies `parseFloat`);
`date` is the value of `new Date(transaction.date)`. -/
structure Transaction where
  amount : ℚ
  type : TxType
  date : JSDate
  deriving DecidableEq, Repr

/-! ## `RealDataChart` bucketing
Source: the `RealDataChart` component (`timeRange` window set-up, period
initialization and the transaction-processing loop). -/

/-- The chart's local time range. -/
inductive TimeRange where
  | daily
  | weekly
  | monthly
  | yearly
  deriving DecidableEq, Repr

/-- Number of periods per time range (30 days / 8 weeks / 12 months /
5 years). -/
def periodsOf : TimeRange → ℕ
  | .daily => 30
  | .weekly => 8
  | .monthly => 12
  | .yearly => 5

/-- The `startDate` the component derives from `now` by mutating a copy:
`setDate(now.getDate() - 30)`, `setDate(now.getDate() - 8*7)`,
`setMonth(now.getMonth() - 11); setDate(1)`, or
`setFullYear(now.getFullYear() - 4); setMonth(0); setDate(1)`. -/
def rdStartDate (now : JSDate) : TimeRange → JSDate
  | .daily => jsSetDate now (jsGetDate now - 30)
  | .weekly => jsSetDate now (jsGetDate now - 8 * 7)
  | .monthly => jsSetDate (jsSetMonth now (jsGetMonth now - 11)) 1
  | .yearly => jsSetDate (jsSetMonth (jsSetFullYear now (jsGetFullYear now - 4)) 0) 1

/-- The period index computed by the transaction-processing loop:
floored day/week distance from `startDate`, calendar month difference, or
calendar year difference. -/
def rdPeriodIndex (rng : TimeRange) (startDate t : JSDate) : ℤ :=
  match rng with
  | .daily => (ts t - ts startDate) / dayMs
  | .weekly => (ts t - ts startDate) / weekMs
  | .monthly =>
    (jsGetFullYear t - jsGetFullYear startDate) * 12 + (jsGetMonth t - jsGetMonth startDate)
  | .yearly => jsGetFullYear t - jsGetFullYear startDate

/-- The window filter `transactionDate >= startDate && transactionDate <= now`
(JS `Date` comparison is comparison of `getTime()`). -/
def rdInWindow (startDate now : JSDate) (t : JSDate) : Bool :=
  decide (ts startDate ≤ ts t) && decide (ts t ≤ ts now)

/-- Income/expense totals of one period bucket. -/
structure PeriodTotals where
  income : ℚ
  expense : ℚ
  deriving DecidableEq, Repr

/-- One step of the transaction-processing loop, restricted to bucket `i`:
the source adds the amount to `periodData[key]` when the date passes the
window filter and the computed index is the (in-range) index `i`.  (The
source's `periodIndex >= 0 && periodIndex < periods` bounds check is implied
by `rdPeriodIndex … = i` for `i < periods`.) -/
def rdStep (rng : TimeRange) (startDate now : JSDate) (i : ℕ)
    (acc : PeriodTotals) (t : Transaction) : PeriodTotals :=
  if rdInWindow startDate now t.date ∧ rdPeriodIndex rng startDate t.date = i then
    match t.type with
    | .income => { acc with income := acc.income + t.amount }
    | .expense => { acc with expense := acc.expense + t.amount }
  else acc

/-- The totals accumulated into bucket `i` by the loop over all
transactions. -/
def rdBucket (txs : List Transaction) (rng : TimeRange) (now : JSDate) (i : ℕ) : PeriodTotals :=
  txs.foldl (rdStep rng (rdStartDate now rng) now i) ⟨0, 0⟩

/-- All buckets of the chart, one per period index (each initialized with
zero income and expense, so empty periods are present). -/
def rdBuckets (txs : List Transaction) (rng : TimeRange) (now : JSDate) : List PeriodTotals :=
  (List.range (periodsOf rng)).map (rdBucket txs rng now)

/-- Total income of the transactions accepted by the window filter. -/
def rdWindowIncome (txs : List Transaction) (startDate now : JSDate) : ℚ :=
  ((txs.filter (fun t => rdInWindow startDate now t.date && t.type == TxType.income)).map
    (·.amount)).sum

/-- The *effective* window of the chart's bucketing: the dates that actually
land in a bucket.  For the day/week ranges the buckets cover only
`[startDate, now)` although the filter accepts `ts t = ts now`; for the
month/year ranges the full closed window `[startDate, now]` is covered. -/
def rdEffWindow (rng : TimeRange) (now : JSDate) (t : JSDate) : Bool :=
  match rng with
  | .daily | .weekly =>
    decide (ts (rdStartDate now rng) ≤ ts t) && decide (ts t < ts now)
  | .monthly | .yearly =>
    decide (ts (rdStartDate now rng) ≤ ts t) && decide (ts t ≤ ts now)

/-! ## `processTransactionData` bucketing
Source: `EnhancedAdvancedCashFlowChart.processTransactionData`
(`advanced-cashflow-chart`, lines 56-112). -/

/-- The analysis time frame. -/
inductive TimeFrame where
  | weekly
  | monthly
  | quarterly
  deriving DecidableEq, Repr

/-- `frame === 'weekly' ? 12 : frame === 'monthly' ? 12 : 4`. -/
def tfPeriods : TimeFrame → ℕ
  | .weekly => 12
  | .monthly => 12
  | .quarterly => 4

/-- `now` shifted back `k` periods: both `periodStart` (with `k = i+1`) and
`periodEnd` (with `k = i`) are computed this way from fresh copies of
`now`. -/
def tfBoundary (frame : TimeFrame) (now : JSDate) (k : ℤ) : JSDate :=
  match frame with
  | .weekly => jsSetDate now (jsGetDate now - k * 7)
  | .monthly => jsSetMonth now (jsGetMonth now - k)
  | .quarterly => jsSetMonth now (jsGetMonth now - k * 3)

/-- One period's aggregate. -/
structure PeriodData where
  income : ℚ
  expense : ℚ
  netFlow : ℚ
  deriving DecidableEq, Repr

/-- The transactions filtered into period `i`:
`transactionDate >= periodStart && transactionDate < periodEnd`. -/
def tfPeriodTxs (txs : List Transaction) (frame : TimeFrame) (now : JSDate) (i : ℕ) : List Transaction :=
  txs.filter (fun t =>
    decide (ts (tfBoundary frame now ((i : ℤ) + 1)) ≤ ts t.date) &&
      decide (ts t.date < ts (tfBoundary frame now (i : ℤ))))

/-- Period `i`'s aggregate: income and expense sums over the filtered
transactions and their difference. -/
def tfPeriod (txs : List Transaction) (frame : TimeFrame) (now : JSDate) (i : ℕ) : PeriodData :=
  let pts := tfPeriodTxs txs frame now i
  let income := ((pts.filter (fun t => t.type == TxType.income)).map (·.amount)).sum
  let expense := ((pts.filter (fun t => t.type == TxType.expense)).map (·.amount)).sum
  ⟨income, expense, income - expense⟩

/-- `processTransactionData`: the loop runs `i` from `periods-1` down to `0`,
pushing period `i`'s aggregate, so entry `j` of the result is period
`periods - 1 - j`. -/
def processTransactionData (txs : List Transaction) (frame : TimeFrame) (now : JSDate) : List PeriodData :=
  (List.range (tfPeriods frame)).map (fun j => tfPeriod txs frame now (tfPeriods frame - 1 - j))

/-- Total income of the transactions inside the overall window
`[now - periods·width, now)` covered by the period list. -/
def tfWindowIncome (txs : List Transaction) (frame : TimeFrame) (now : JSDate) : ℚ :=
  ((txs.filter (fun t =>
    decide (ts (tfBoundary frame now (tfPeriods frame : ℤ)) ≤ ts t.date) &&
      decide (ts t.date < ts (tfBoundary frame now 0)) && (t.type == TxType.income))).map
    (·.amount)).sum

/-! ## Cash-flow projections
Source: `InteractiveProjections` (`generateProjectionsFromTransactions`,
`calculateProjectionMetrics`, `calculateModifiedData`). -/

/-- A cash-flow projection entry.  In the source the monetary fields are
decimal strings; they are modelled by their exact rational values. -/
structure CashFlowProjection where
  date : JSDate
  projectedIncome : ℚ
  projectedExpenses : ℚ
  netFlow : ℚ
  deriving DecidableEq, Repr

/-- Income accumulated into the month bucket `mi` by the grouping loop
(`monthData.income += amount` for income transactions). -/
def monthIncome (txs : List Transaction) (mi : ℤ) : ℚ :=
  ((txs.filter (fun t => t.date.mi == mi && t.type == TxType.income)).map (·.amount)).sum

/-- Expenses accumulated into the month bucket `mi`
(`monthData.expenses += Math.abs(amount)` for non-income transactions). -/
def monthExpenses (txs : List Transaction) (mi : ℤ) : ℚ :=
  ((txs.filter (fun t => t.date.mi == mi && t.type != TxType.income)).map
    (fun t => |t.amount|)).sum

/-- Insert a month key into a sorted list of distinct keys. -/
def insertSortedDistinct (x : ℤ) : List ℤ → List ℤ
  | [] => [x]
  | y :: ys =>
    if x < y then x :: y :: ys
    else if x = y then y :: ys
    else y :: insertSortedDistinct x ys

/-- The sorted distinct month keys of the transaction list.  (The source
sorts the `"YYYY-MM"` key strings lexicographically, which agrees with
numeric month order for four-digit years.) -/
def sortedMonths (txs : List Transaction) : List ℤ :=
  txs.foldl (fun acc t => insertSortedDistinct t.date.mi acc) []

/-- The historical projection entry of month `mi`: dated at the first of the
month (`new Date(y, m, 1)`), with the month's totals. -/
def histEntry (txs : List Transaction) (mi : ℤ) : CashFlowProjection :=
  let income := monthIncome txs mi
  let expenses := monthExpenses txs mi
  ⟨⟨mi, 1, 0⟩, income, expenses, income - expenses⟩

/-- `generateProjectionsFromTransactions`: group by month, emit the historical
entries in key order, then append 6 future months whose income/expenses are
the historical averages scaled by `1 + (Math.random() - 0.5) * 0.1`.  The
random draws are made explicit as the stream `rng` (draw `j` is the
`Math.random()` call of future month `j+1`). -/
def generateProjectionsFromTransactions (txs : List Transaction) (rng : ℕ → ℚ) :
    List CashFlowProjection :=
  if txs.isEmpty then []
  else
    let hist := (sortedMonths txs).map (histEntry txs)
    match hist.getLast? with
    | none => hist
    | some lastEntry =>
      let avgIncome := (hist.map (·.projectedIncome)).sum / hist.length
      let avgExpenses := (hist.map (·.projectedExpenses)).sum / hist.length
      let future := (List.range 6).map (fun (j : ℕ) =>
        let futureDate := jsSetMonth lastEntry.date (jsGetMonth lastEntry.date + ((j : ℤ) + 1))
        let growthFactor : ℚ := 1 + (rng j - 1 / 2) * (1 / 10)
        let futureIncome := avgIncome * growthFactor
        let futureExpenses := avgExpenses * growthFactor
        ⟨futureDate, futureIncome, futureExpenses, futureIncome - futureExpenses⟩)
      hist ++ future

/-- A scenario's adjustable parameters.  (`timeFrame` is carried separately as
the `months` argument of the metric computation;
`scenario.marketGrowth || 0` and `scenario.inflationRate || 0` for the
optional fields coincide with plain field access over `ℚ`.) -/
structure Scenario where
  name : String
  incomeGrowth : ℚ
  expenseReduction : ℚ
  oneTimeIncome : ℚ
  oneTimeExpense : ℚ
  marketGrowth : ℚ
  inflationRate : ℚ
  deriving DecidableEq, Repr

/-- The three-tier risk classification. -/
inductive RiskLevel where
  | low
  | medium
  | high
  deriving DecidableEq, Repr

/-- The metric record returned by `calculateProjectionMetrics`. -/
structure ProjectionMetrics where
  totalProjectedIncome : ℚ
  totalProjectedExpenses : ℚ
  netProjectedFlow : ℚ
  worstCaseScenario : ℚ
  bestCaseScenario : ℚ
  averageMonthlyFlow : ℚ
  breakEvenPoint : ℚ
  riskLevel : RiskLevel
  deriving DecidableEq, Repr

/-- Historical average income of a projection list. -/
def avgIncomeOf (data : List CashFlowProjection) : ℚ :=
  (data.map (·.projectedIncome)).sum / data.length

/-- Historical average expenses of a projection list. -/
def avgExpensesOf (data : List CashFlowProjection) : ℚ :=
  (data.map (·.projectedExpenses)).sum / data.length

/-- The `projectedIncome` constant of `calculateProjectionMetrics`:
`avgIncome * (1 + incomeGrowth/100) * (1 + marketGrowth/100)`. -/
def projIncomeOf (data : List CashFlowProjection) (s : Scenario) : ℚ :=
  avgIncomeOf data * (1 + s.incomeGrowth / 100) * (1 + s.marketGrowth / 100)

/-- The `projectedExpenses` constant:
`avgExpenses * (1 - expenseReduction/100) * (1 + inflationRate/100/12)`. -/
def projExpensesOf (data : List CashFlowProjection) (s : Scenario) : ℚ :=
  avgExpensesOf data * (1 - s.expenseReduction / 100) * (1 + s.inflationRate / 100 / 12)

/-- The `monthlyNetFlow` constant. -/
def monthlyNetFlowOf (data : List CashFlowProjection) (s : Scenario) : ℚ :=
  projIncomeOf data s - projExpensesOf data s

/-- The `totalProjectedIncome` constant (`projectedIncome * months` plus the
one-time income, added once). -/
def totalIncomeOf (data : List CashFlowProjection) (s : Scenario) (months : ℕ) : ℚ :=
  projIncomeOf data s * months + s.oneTimeIncome

/-- The `totalProjectedExpenses` constant. -/
def totalExpensesOf (data : List CashFlowProjection) (s : Scenario) (months : ℕ) : ℚ :=
  projExpensesOf data s * months + s.oneTimeExpense

/-- The `netProjectedFlow` constant. -/
def netFlowOf (data : List CashFlowProjection) (s : Scenario) (months : ℕ) : ℚ :=
  totalIncomeOf data s months - totalExpensesOf data s months

/-- The `variance` constant (`Math.abs(monthlyNetFlow * 0.2)`). -/
def varianceOf (data : List CashFlowProjection) (s : Scenario) : ℚ :=
  |monthlyNetFlowOf data s * (2 / 10)|

/-- The `worstCase` constant. -/
def worstCaseOf (data : List CashFlowProjection) (s : Scenario) (months : ℕ) : ℚ :=
  netFlowOf data s months - varianceOf data s * months

/-- The `bestCase` constant. -/
def bestCaseOf (data : List CashFlowProjection) (s : Scenario) (months : ℕ) : ℚ :=
  netFlowOf data s months + varianceOf data s * months

/-- The risk-level selection: `medium` by default, `high` when the worst case
is negative and the net flow is below twice the average income, else `low`
when the net flow exceeds six times the average income. -/
def riskOf (data : List CashFlowProjection) (s : Scenario) (months : ℕ) : RiskLevel :=
  if worstCaseOf data s months < 0 ∧ netFlowOf data s months < avgIncomeOf data * 2 then .high
  else if netFlowOf data s months > avgIncomeOf data * 6 then .low
  else .medium

/-- The break-even point (`projectedIncome / projectedExpenses`, guarded). -/
def breakEvenOf (data : List CashFlowProjection) (s : Scenario) : ℚ :=
  if projExpensesOf data s > 0 then projIncomeOf data s / projExpensesOf data s else 0

/-- `calculateProjectionMetrics(data, scenario, months)`, assembled from the
constants above (each mirrors one `const` of the source).  The source's
fallback branch for records without a `projectedIncome` field is dead here:
the typed `CashFlowProjection` interface always has the field. -/
def calculateProjectionMetrics (data : List CashFlowProjection) (scenario : Scenario)
    (months : ℕ) : ProjectionMetrics :=
  if data.isEmpty then
    ⟨0, 0, 0, 0, 0, 0, 0, .medium⟩
  else
    ⟨totalIncomeOf data scenario months, totalExpensesOf data scenario months,
      netFlowOf data scenario months, worstCaseOf data scenario months,
      bestCaseOf data scenario months, monthlyNetFlowOf data scenario,
      breakEvenOf data scenario, riskOf data scenario months⟩

/-- The indexed map underlying `calculateModifiedData`. -/
def calculateModifiedDataAux (scenario : Scenario) :
    List CashFlowProjection → ℕ → List CashFlowProjection
  | [], _ => []
  | item :: rest, index =>
    let income := item.projectedIncome
    let expenses := item.projectedExpenses
    let modifiedIncome := income * (1 + scenario.incomeGrowth / 100)
    let modifiedExpenses := expenses * (1 - scenario.expenseReduction / 100)
    let finalIncome :=
      if index = 0 then modifiedIncome + scenario.oneTimeIncome else modifiedIncome
    let finalExpenses :=
      if index = 0 then modifiedExpenses + scenario.oneTimeExpense else modifiedExpenses
    { item with
        projectedIncome := finalIncome,
        projectedExpenses := finalExpenses,
        netFlow := finalIncome - finalExpenses } ::
      calculateModifiedDataAux scenario rest (index + 1)

/-- `calculateModifiedData(originalData, scenario)`: percentage changes on
every entry, one-time adjustments only on index 0. -/
def calculateModifiedData (data : List CashFlowProjection) (scenario : Scenario) :
    List CashFlowProjection :=
  calculateModifiedDataAux scenario data 0

/-! ## Smart insight trend detection
Source: `SmartInsightsGenerator.detectCashFlowTrends` in the reports
component. -/

/-- Insight categories. -/
inductive InsightType where
  | pattern
  | alert
  | opportunity
  | recommendation
  deriving DecidableEq, Repr

/-- Insight priorities. -/
inductive InsightPriority where
  | low
  | medium
  | high
  deriving DecidableEq, Repr

/-- A smart insight, restricted to the fields the trend rule is specified
over (the textual fields are presentation only). -/
structure SmartInsight where
  id : String
  type : InsightType
  priority : InsightPriority
  deriving DecidableEq, Repr

/-- `every((value, index, arr) => index === 0 || value < arr[index - 1])`:
each element is strictly below its predecessor. -/
def strictlyDecreasing : List ℚ → Bool
  | a :: b :: rest => decide (b < a) && strictlyDecreasing (b :: rest)
  | _ => true

/-- `every((value, index, arr) => index === 0 || value > arr[index - 1])`:
each element is strictly above its predecessor. -/
def strictlyIncreasing : List ℚ → Bool
  | a :: b :: rest => decide (a < b) && strictlyIncreasing (b :: rest)
  | _ => true

/-- `slice(-3)`: the last three elements. -/
def lastThree (l : List ℚ) : List ℚ := l.drop (l.length - 3)

/-- `detectCashFlowTrends`: nothing for fewer than 3 entries; a high-priority
alert when the last 3 net flows are strictly decreasing, else a
medium-priority opportunity when they are strictly increasing. -/
def detectCashFlowTrends (cashFlowData : List CashFlowProjection) : List SmartInsight :=
  if cashFlowData.length < 3 then []
  else
    let netFlows := cashFlowData.map (·.netFlow)
    if strictlyDecreasing (lastThree netFlows) then
      [⟨"trend-decreasing", .alert, .high⟩]
    else if strictlyIncreasing (lastThree netFlows) then
      [⟨"trend-increasing", .opportunity, .medium⟩]
    else []

end FinPyme

namespace FinPyme

/-! ## Lemmas about the date model -/

theorem daysInMonth_bounds (mi : ℤ) : 28 ≤ daysInMonth mi ∧ daysInMonth mi ≤ 31 := by
  unfold daysInMonth monthLength
  split
  · split <;> omega
  · split <;> omega

theorem leapCount_succ (y : ℤ) :
    leapCount (y + 1) = leapCount y + (if isLeapYear y then 1 else 0) := by
  unfold leapCount isLeapYear
  split
  · next h =>
    simp only [Bool.or_eq_true, Bool.and_eq_true, beq_iff_eq, bne_iff_ne] at h
    omega
  · next h =>
    simp only [Bool.or_eq_true, Bool.and_eq_true, beq_iff_eq, bne_iff_ne] at h
    push_neg at h
    omega

theorem daysBeforeMonth_step (m : ℤ) (h0 : 0 ≤ m) (h1 : m < 11) (leap : Bool) :
    daysBeforeMonth (m + 1) + (if leap ∧ 2 ≤ m + 1 then 1 else 0)
      = daysBeforeMonth m + (if leap ∧ 2 ≤ m then 1 else 0) + monthLength leap m := by
  interval_cases m <;> cases leap <;> decide

theorem monthStartDay_succ (mi : ℤ) :
    monthStartDay (mi + 1) = monthStartDay mi + daysInMonth mi := by
  have hm : 0 ≤ mi % 12 ∧ mi % 12 < 12 :=
    ⟨Int.emod_nonneg mi (by norm_num), Int.emod_lt_of_pos mi (by norm_num)⟩
  unfold monthStartDay daysInMonth yearOf monthInYear
  rcases Decidable.em (mi % 12 = 11) with h11 | h11
  · have hq : (mi + 1) / 12 = mi / 12 + 1 := by omega
    have hr : (mi + 1) % 12 = 0 := by omega
    rw [hq, hr, h11, leapCount_succ]
    have e1 : daysBeforeMonth 0 = 0 := by norm_num [daysBeforeMonth]
    have e2 : daysBeforeMonth 11 = 334 := by norm_num [daysBeforeMonth]
    have e3 : monthLength (isLeapYear (mi / 12)) 11 = 31 := by norm_num [monthLength]
    rw [e1, e2, e3]
    rcases Decidable.em (isLeapYear (mi / 12) = true) with hl | hl <;> simp [hl] <;> omega
  · have hq : (mi + 1) / 12 = mi / 12 := by omega
    have hr : (mi + 1) % 12 = mi % 12 + 1 := by omega
    rw [hq, hr]
    linarith [daysBeforeMonth_step (mi % 12) hm.1 (by omega) (isLeapYear (mi / 12))]

theorem monthStartDay_mono {a b : ℤ} (h : a ≤ b) : monthStartDay a ≤ monthStartDay b := by
  obtain ⟨k, rfl⟩ : ∃ k : ℕ, b = a + k := ⟨(b - a).toNat, by omega⟩
  clear h
  induction k with
  | zero => simp
  | succ n ih =>
    have hs := monthStartDay_succ (a + n)
    have hb := daysInMonth_bounds (a + n)
    have e : a + ((n + 1 : ℕ) : ℤ) = a + n + 1 := by push_cast; ring
    rw [e]
    omega

theorem monthStartDay_strict {a b : ℤ} (h : a < b) : monthStartDay a + 28 ≤ monthStartDay b := by
  have h2 := monthStartDay_mono (show a + 1 ≤ b by omega)
  have hs := monthStartDay_succ a
  have hb := daysInMonth_bounds a
  omega

theorem borrowSteps_position (n : ℕ) : ∀ mi day : ℤ,
    monthStartDay (borrowSteps n mi day).1 + (borrowSteps n mi day).2
      = monthStartDay mi + day := by
  induction n with
  | zero => intro mi day; rfl
  | succ n ih =>
    intro mi day
    rw [borrowSteps]
    split
    · rw [ih]
      have hs := monthStartDay_succ (mi - 1)
      have e : mi - 1 + 1 = mi := by ring
      rw [e] at hs
      omega
    · rfl

theorem borrowSteps_of_ge (n : ℕ) (mi day : ℤ) (h : 1 ≤ day) :
    borrowSteps n mi day = (mi, day) := by
  cases n with
  | zero => rfl
  | succ n => rw [borrowSteps, if_neg (by omega)]

theorem borrowSteps_norm (n : ℕ) : ∀ mi day : ℤ, day < 1 → (1 - day).toNat ≤ n →
    1 ≤ (borrowSteps n mi day).2 ∧
      (borrowSteps n mi day).2 ≤ daysInMonth (borrowSteps n mi day).1 := by
  induction n with
  | zero => intro mi day h hf; omega
  | succ n ih =>
    intro mi day h hf
    rw [borrowSteps, if_pos h]
    have hb := daysInMonth_bounds (mi - 1)
    by_cases h2 : day + daysInMonth (mi - 1) < 1
    · exact ih _ _ h2 (by omega)
    · rw [borrowSteps_of_ge n _ _ (by omega)]
      dsimp only
      exact ⟨by omega, by omega⟩

theorem carrySteps_position (n : ℕ) : ∀ mi day : ℤ,
    monthStartDay (carrySteps n mi day).1 + (carrySteps n mi day).2
      = monthStartDay mi + day := by
  induction n with
  | zero => intro mi day; rfl
  | succ n ih =>
    intro mi day
    rw [carrySteps]
    split
    · rw [ih]
      have hs := monthStartDay_succ mi
      omega
    · rfl

theorem carrySteps_of_le (n : ℕ) (mi day : ℤ) (h : day ≤ daysInMonth mi) :
    carrySteps n mi day = (mi, day) := by
  cases n with
  | zero => rfl
  | succ n => rw [carrySteps, if_neg (by omega)]

theorem carrySteps_norm (n : ℕ) : ∀ mi day : ℤ, 1 ≤ day → day.toNat ≤ n →
    1 ≤ (carrySteps n mi day).2 ∧
      (carrySteps n mi day).2 ≤ daysInMonth (carrySteps n mi day).1 := by
  induction n with
  | zero => intro mi day h hf; omega
  | succ n ih =>
    intro mi day h hf
    rw [carrySteps]
    have hb := daysInMonth_bounds mi
    split
    · next hc => exact ih _ _ (by omega) (by omega)
    · next hc =>
      dsimp only
      exact ⟨by omega, by omega⟩

theorem normalizeMD_position (mi day : ℤ) :
    monthStartDay (normalizeMD mi day).1 + (normalizeMD mi day).2
      = monthStartDay mi + day := by
  unfold normalizeMD
  split
  · exact borrowSteps_position _ mi day
  · exact carrySteps_position _ mi day

theorem normalizeMD_norm (mi day : ℤ) :
    1 ≤ (normalizeMD mi day).2 ∧
      (normalizeMD mi day).2 ≤ daysInMonth (normalizeMD mi day).1 := by
  unfold normalizeMD
  split
  · next h => exact borrowSteps_norm _ mi day h (le_refl _)
  · next h => exact carrySteps_norm _ mi day (by omega) (le_refl _)

theorem normalizeMD_self (mi day : ℤ) (h1 : 1 ≤ day) (h2 : day ≤ daysInMonth mi) :
    normalizeMD mi day = (mi, day) := by
  unfold normalizeMD
  rw [if_neg (by omega), carrySteps_of_le _ _ _ h2]

theorem mkDate_day_one (mi ms : ℤ) : mkDate mi 1 ms = ⟨mi, 1, ms⟩ := by
  unfold mkDate
  rw [normalizeMD_self mi 1 (le_refl _) (by have := daysInMonth_bounds mi; omega)]

theorem normalizeMD_mi_bound (mi day : ℤ) (h1 : 1 ≤ day) (h2 : day ≤ 31) :
    (normalizeMD mi day).1 = mi ∨ (normalizeMD mi day).1 = mi + 1 := by
  unfold normalizeMD
  rw [if_neg (by omega)]
  have hd := daysInMonth_bounds mi
  have hd2 := daysInMonth_bounds (mi + 1)
  by_cases hc : day ≤ daysInMonth mi
  · rw [carrySteps_of_le _ _ _ hc]
    left; rfl
  · obtain ⟨n, hn⟩ : ∃ n : ℕ, day.toNat = n + 1 := ⟨day.toNat - 1, by omega⟩
    rw [hn, carrySteps, if_pos (by omega), carrySteps_of_le _ _ _ (by omega)]
    right; rfl

theorem ts_mkDate (mi day ms : ℤ) :
    ts (mkDate mi day ms) = (monthStartDay mi + (day - 1)) * dayMs + ms := by
  simp only [ts, mkDate]
  have hp := normalizeMD_position mi day
  have e : monthStartDay (normalizeMD mi day).1 + ((normalizeMD mi day).2 - 1)
      = monthStartDay mi + (day - 1) := by omega
  rw [e]

theorem mkDate_valid (mi day ms : ℤ) (h1 : 0 ≤ ms) (h2 : ms < dayMs) :
    ValidDate (mkDate mi day ms) := by
  have hn := normalizeMD_norm mi day
  exact ⟨hn.1, hn.2, h1, h2⟩

theorem mi_le_of_ts_le {d e : JSDate} (hd : ValidDate d) (he : ValidDate e)
    (h : ts d ≤ ts e) : d.mi ≤ e.mi := by
  by_contra hlt
  push_neg at hlt
  have h1 := monthStartDay_succ e.mi
  have h2 := monthStartDay_mono (show e.mi + 1 ≤ d.mi by omega)
  have hb := daysInMonth_bounds e.mi
  unfold ts at h
  obtain ⟨hd1, hd2, hd3, hd4⟩ := hd
  obtain ⟨he1, he2, he3, he4⟩ := he
  unfold dayMs at *
  omega

theorem ts_lt_of_mi_lt {d e : JSDate} (hd : ValidDate d) (he : ValidDate e)
    (h : d.mi < e.mi) : ts d < ts e := by
  by_contra hc
  push_neg at hc
  have := mi_le_of_ts_le he hd hc
  omega

/-! ## Derived timestamp facts for the chart windows -/

theorem ts_jsSetDate (d : JSDate) (n : ℤ) :
    ts (jsSetDate d n) = ts d + (n - d.day) * dayMs := by
  unfold jsSetDate
  rw [ts_mkDate]
  unfold ts
  ring

theorem ts_jsSetMonth (d : JSDate) (m : ℤ) :
    ts (jsSetMonth d m)
      = (monthStartDay (12 * yearOf d.mi + m) + (d.day - 1)) * dayMs + d.ms := by
  unfold jsSetMonth
  rw [ts_mkDate]

theorem setMonth_arg (mi k : ℤ) : 12 * yearOf mi + (monthInYear mi - k) = mi - k := by
  unfold yearOf monthInYear
  omega

theorem daysInMonth_of_eleven {mi : ℤ} (h : mi % 12 = 11) : daysInMonth mi = 31 := by
  unfold daysInMonth monthLength monthInYear
  rw [h]
  norm_num

theorem daysInMonth_of_zero {mi : ℤ} (h : mi % 12 = 0) : daysInMonth mi = 31 := by
  unfold daysInMonth monthLength monthInYear
  rw [h]
  norm_num

theorem rdStartDate_daily_ts (now : JSDate) :
    ts (rdStartDate now .daily) = ts now - 30 * dayMs := by
  show ts (jsSetDate now (jsGetDate now - 30)) = _
  rw [ts_jsSetDate]
  unfold jsGetDate
  ring

theorem rdStartDate_weekly_ts (now : JSDate) :
    ts (rdStartDate now .weekly) = ts now - 56 * dayMs := by
  show ts (jsSetDate now (jsGetDate now - 8 * 7)) = _
  rw [ts_jsSetDate]
  unfold jsGetDate
  ring

theorem rdStartDate_monthly (now : JSDate) (hnow : ValidDate now) :
    rdStartDate now .monthly = ⟨(normalizeMD (now.mi - 11) now.day).1, 1, now.ms⟩ ∧
      ((normalizeMD (now.mi - 11) now.day).1 = now.mi - 11 ∨
        (normalizeMD (now.mi - 11) now.day).1 = now.mi - 10) := by
  obtain ⟨hday1, hdaydim, _, _⟩ := hnow
  have hdim := daysInMonth_bounds now.mi
  constructor
  · show jsSetDate (jsSetMonth now (jsGetMonth now - 11)) 1 = _
    unfold jsSetMonth jsGetMonth
    rw [setMonth_arg]
    unfold jsSetDate
    simp only [mkDate]
    rw [normalizeMD_self _ _ (le_refl 1)
      (by have := daysInMonth_bounds (normalizeMD (now.mi - 11) now.day).1; omega)]
  · have := normalizeMD_mi_bound (now.mi - 11) now.day hday1 (by omega)
    omega

theorem rdStartDate_yearly (now : JSDate) (hnow : ValidDate now) :
    rdStartDate now .yearly = ⟨12 * (yearOf now.mi - 4), 1, now.ms⟩ := by
  obtain ⟨hday1, hdaydim, hms0, hms1⟩ := hnow
  have hdim := daysInMonth_bounds now.mi
  have hday31 : now.day ≤ 31 := by omega
  show jsSetDate (jsSetMonth (jsSetFullYear now (jsGetFullYear now - 4)) 0) 1 = _
  unfold jsSetFullYear jsGetFullYear jsSetMonth jsSetDate
  simp only [mkDate]
  unfold yearOf monthInYear
  set base := 12 * (now.mi / 12 - 4) + now.mi % 12 with hbase
  have hp := normalizeMD_norm base now.day
  have hpos := normalizeMD_position base now.day
  have hbnd := normalizeMD_mi_bound base now.day hday1 hday31
  have hyear : (normalizeMD base now.day).1 / 12 = now.mi / 12 - 4 := by
    rcases hbnd with hb | hb
    · rw [hb]
      omega
    · have hs := monthStartDay_succ base
      have hdimb := daysInMonth_bounds base
      have hday_gt : daysInMonth base < now.day := by
        rw [hb] at hpos
        omega
      have hne : ¬(base % 12 = 11) := by
        intro h11
        have := daysInMonth_of_eleven h11
        omega
      rw [hb]
      omega
  have e2 : 12 * ((normalizeMD base now.day).1 / 12) + 0 = 12 * (now.mi / 12 - 4) := by
    omega
  rw [e2]
  have h31 : daysInMonth (12 * (now.mi / 12 - 4)) = 31 := daysInMonth_of_zero (by omega)
  have hp31 : (normalizeMD base now.day).2 ≤ 31 :=
    le_trans hp.2 (daysInMonth_bounds (normalizeMD base now.day).1).2
  rw [normalizeMD_self _ _ hp.1 (by omega)]
  dsimp only
  rw [normalizeMD_self _ _ (le_refl 1) (by omega)]

theorem rdCounted_iff (rng : TimeRange) (now : JSDate) (hnow : ValidDate now)
    (t : JSDate) (ht : ValidDate t) :
    ((rdInWindow (rdStartDate now rng) now t = true) ∧
        0 ≤ rdPeriodIndex rng (rdStartDate now rng) t ∧
        rdPeriodIndex rng (rdStartDate now rng) t < (periodsOf rng : ℤ))
      ↔ rdEffWindow rng now t = true := by
  cases rng with
  | daily =>
    have hs := rdStartDate_daily_ts now
    unfold rdInWindow rdEffWindow rdPeriodIndex periodsOf
    simp only [Bool.and_eq_true, decide_eq_true_eq]
    unfold dayMs at hs ⊢
    constructor
    · rintro ⟨⟨h1, h2⟩, h3, h4⟩
      exact ⟨h1, by omega⟩
    · rintro ⟨h1, h2⟩
      exact ⟨⟨h1, by omega⟩, by omega, by omega⟩
  | weekly =>
    have hs := rdStartDate_weekly_ts now
    unfold rdInWindow rdEffWindow rdPeriodIndex periodsOf
    simp only [Bool.and_eq_true, decide_eq_true_eq]
    unfold dayMs at hs
    unfold weekMs
    constructor
    · rintro ⟨⟨h1, h2⟩, h3, h4⟩
      exact ⟨h1, by omega⟩
    · rintro ⟨h1, h2⟩
      exact ⟨⟨h1, by omega⟩, by omega, by omega⟩
  | monthly =>
    obtain ⟨hsd, hmi⟩ := rdStartDate_monthly now hnow
    have hvs : ValidDate (⟨(normalizeMD (now.mi - 11) now.day).1, 1, now.ms⟩ : JSDate) := by
      unfold ValidDate
      dsimp only
      have := daysInMonth_bounds (normalizeMD (now.mi - 11) now.day).1
      exact ⟨le_refl 1, by omega, hnow.2.2.1, hnow.2.2.2⟩
    unfold rdInWindow rdEffWindow rdPeriodIndex periodsOf
    rw [hsd]
    simp only [Bool.and_eq_true, decide_eq_true_eq]
    constructor
    · rintro ⟨⟨h1, h2⟩, _, _⟩
      exact ⟨h1, h2⟩
    · rintro ⟨h1, h2⟩
      have h1' := mi_le_of_ts_le hvs ht h1
      have h2' := mi_le_of_ts_le ht hnow h2
      dsimp at h1'
      unfold jsGetFullYear jsGetMonth yearOf monthInYear
      dsimp
      exact ⟨⟨h1, h2⟩, by omega, by omega⟩
  | yearly =>
    have hsd := rdStartDate_yearly now hnow
    have hvs : ValidDate (⟨12 * (yearOf now.mi - 4), 1, now.ms⟩ : JSDate) := by
      unfold ValidDate
      dsimp only
      have := daysInMonth_bounds (12 * (yearOf now.mi - 4))
      exact ⟨le_refl 1, by omega, hnow.2.2.1, hnow.2.2.2⟩
    unfold rdInWindow rdEffWindow rdPeriodIndex periodsOf
    rw [hsd]
    simp only [Bool.and_eq_true, decide_eq_true_eq]
    constructor
    · rintro ⟨⟨h1, h2⟩, _, _⟩
      exact ⟨h1, h2⟩
    · rintro ⟨h1, h2⟩
      have h1' := mi_le_of_ts_le hvs ht h1
      have h2' := mi_le_of_ts_le ht hnow h2
      dsimp at h1'
      unfold jsGetFullYear
      dsimp
      unfold yearOf at h1' ⊢
      exact ⟨⟨h1, h2⟩, by omega, by omega⟩

theorem rdStep_income (rng : TimeRange) (sd now : JSDate) (i : ℕ) (acc : PeriodTotals)
    (t : Transaction) :
    (rdStep rng sd now i acc t).income
      = acc.income + (if (rdInWindow sd now t.date && (t.type == TxType.income))
          && (rdPeriodIndex rng sd t.date == (i : ℤ)) then t.amount else 0) := by
  unfold rdStep
  by_cases hw : rdInWindow sd now t.date = true ∧ rdPeriodIndex rng sd t.date = (i : ℤ)
  · rw [if_pos hw]
    cases hty : t.type <;> simp [hw.1, hw.2, hty]
  · rw [if_neg hw]
    have hc : ((rdInWindow sd now t.date && (t.type == TxType.income))
        && (rdPeriodIndex rng sd t.date == (i : ℤ))) = false := by
      cases hb : rdInWindow sd now t.date with
      | false => simp [hb]
      | true =>
        have h2 : ¬(rdPeriodIndex rng sd t.date = (i : ℤ)) := fun hh => hw ⟨hb, hh⟩
        simp [h2]
    rw [hc]
    simp

theorem rdFold_income (rng : TimeRange) (sd now : JSDate) (i : ℕ) :
    ∀ (txs : List Transaction) (acc : PeriodTotals),
      (txs.foldl (rdStep rng sd now i) acc).income
        = acc.income + ((txs.filter (fun t =>
            (rdInWindow sd now t.date && (t.type == TxType.income))
              && (rdPeriodIndex rng sd t.date == (i : ℤ)))).map (·.amount)).sum := by
  intro txs
  induction txs with
  | nil =>
    intro acc
    simp
  | cons t rest ih =>
    intro acc
    rw [List.foldl_cons, ih, rdStep_income, List.filter_cons]
    cases hc : ((rdInWindow sd now t.date && (t.type == TxType.income))
        && (rdPeriodIndex rng sd t.date == (i : ℤ))) with
    | true =>
      simp only [if_pos rfl, List.map_cons, List.sum_cons, if_true]
      ring
    | false =>
      simp only [Bool.false_eq_true, if_false]
      ring

theorem rdBucket_income (txs : List Transaction) (rng : TimeRange) (now : JSDate) (i : ℕ) :
    (rdBucket txs rng now i).income
      = ((txs.filter (fun t =>
          (rdInWindow (rdStartDate now rng) now t.date && (t.type == TxType.income))
            && (rdPeriodIndex rng (rdStartDate now rng) t.date == (i : ℤ)))).map
          (·.amount)).sum := by
  unfold rdBucket
  rw [rdFold_income]
  simp

theorem list_sum_map_add (l : List ℕ) (f g : ℕ → ℚ) :
    (l.map (fun i => f i + g i)).sum = (l.map f).sum + (l.map g).sum := by
  induction l with
  | nil => simp
  | cons x xs ih =>
    simp only [List.map_cons, List.sum_cons, ih]
    ring

theorem list_sum_range_ite (P : ℕ) (idx : ℤ) (a : ℚ) :
    ((List.range P).map (fun (i : ℕ) => if idx = (i : ℤ) then a else 0)).sum
      = if 0 ≤ idx ∧ idx < (P : ℤ) then a else 0 := by
  induction P with
  | zero =>
    rw [if_neg (by omega)]
    simp
  | succ n ih =>
    rw [List.range_succ, List.map_append, List.sum_append, ih]
    simp only [List.map_cons, List.map_nil, List.sum_cons, List.sum_nil, add_zero]
    by_cases h : idx = (n : ℤ)
    · rw [if_pos h, if_neg (by omega), if_pos (by omega)]
      ring
    · rw [if_neg h]
      by_cases h2 : 0 ≤ idx ∧ idx < (n : ℤ)
      · rw [if_pos h2, if_pos (by omega)]
        ring
      · rw [if_neg h2, if_neg (by omega)]
        ring

theorem sum_over_buckets (P : ℕ) (w : Transaction → Bool) (idx : Transaction → ℤ) :
    ∀ txs : List Transaction,
      ((List.range P).map (fun (i : ℕ) =>
        ((txs.filter (fun t => w t && (idx t == (i : ℤ)))).map (·.amount)).sum)).sum
        = ((txs.filter (fun t => w t && decide (0 ≤ idx t)
            && decide (idx t < (P : ℤ)))).map (·.amount)).sum := by
  intro txs
  induction txs with
  | nil => simp
  | cons t rest ih =>
    have e : ((List.range P).map (fun (i : ℕ) =>
        (((t :: rest).filter (fun t => w t && (idx t == (i : ℤ)))).map (·.amount)).sum))
        = (List.range P).map (fun (i : ℕ) =>
            (if w t && (idx t == (i : ℤ)) then t.amount else 0)
              + ((rest.filter (fun t => w t && (idx t == (i : ℤ)))).map (·.amount)).sum) := by
      apply List.map_congr_left
      intro i _
      rw [List.filter_cons]
      cases hc : (w t && (idx t == (i : ℤ))) with
      | true => simp
      | false => simp
    rw [e, list_sum_map_add, ih, List.filter_cons]
    have hsingle : ((List.range P).map (fun (i : ℕ) =>
        if w t && (idx t == (i : ℤ)) then t.amount else 0)).sum
        = if w t && decide (0 ≤ idx t) && decide (idx t < (P : ℤ)) then t.amount else 0 := by
      cases hw : w t with
      | false => simp [hw]
      | true =>
        simp only [Bool.true_and]
        have e2 : ((List.range P).map (fun (i : ℕ) =>
            if (idx t == (i : ℤ)) = true then t.amount else 0))
            = (List.range P).map (fun (i : ℕ) => if idx t = (i : ℤ) then t.amount else 0) := by
          apply List.map_congr_left
          intro i _
          by_cases hi : idx t = (i : ℤ)
          · rw [if_pos (by simpa using hi), if_pos hi]
          · rw [if_neg (by simpa using hi), if_neg hi]
        rw [e2, list_sum_range_ite]
        by_cases h0 : 0 ≤ idx t ∧ idx t < (P : ℤ)
        · rw [if_pos h0]
          simp [h0.1, h0.2]
        · rw [if_neg h0]
          rcases Decidable.em (0 ≤ idx t) with hp | hp
          · have hnp : ¬(idx t < (P : ℤ)) := fun hh => h0 ⟨hp, hh⟩
            simp [hp, hnp]
          · simp [hp]
    rw [hsingle]
    cases hc : (w t && decide (0 ≤ idx t) && decide (idx t < (P : ℤ))) with
    | true => simp
    | false => simp

theorem ts_tfBoundary_weekly (now : JSDate) (k : ℤ) :
    ts (tfBoundary .weekly now k) = ts now - k * 7 * dayMs := by
  show ts (jsSetDate now (jsGetDate now - k * 7)) = _
  rw [ts_jsSetDate]
  unfold jsGetDate
  ring

theorem ts_tfBoundary_monthly (now : JSDate) (k : ℤ) :
    ts (tfBoundary .monthly now k)
      = (monthStartDay (now.mi - k) + (now.day - 1)) * dayMs + now.ms := by
  show ts (jsSetMonth now (jsGetMonth now - k)) = _
  rw [ts_jsSetMonth]
  unfold jsGetMonth
  rw [setMonth_arg]

theorem ts_tfBoundary_quarterly (now : JSDate) (k : ℤ) :
    ts (tfBoundary .quarterly now k)
      = (monthStartDay (now.mi - k * 3) + (now.day - 1)) * dayMs + now.ms := by
  show ts (jsSetMonth now (jsGetMonth now - k * 3)) = _
  rw [ts_jsSetMonth]
  unfold jsGetMonth
  rw [setMonth_arg]

theorem tfBoundary_strict (frame : TimeFrame) (now : JSDate) {j k : ℤ} (h : j < k) :
    ts (tfBoundary frame now k) < ts (tfBoundary frame now j) := by
  cases frame with
  | weekly =>
    rw [ts_tfBoundary_weekly, ts_tfBoundary_weekly]
    unfold dayMs
    omega
  | monthly =>
    rw [ts_tfBoundary_monthly, ts_tfBoundary_monthly]
    have := monthStartDay_strict (show now.mi - k < now.mi - j by omega)
    unfold dayMs
    omega
  | quarterly =>
    rw [ts_tfBoundary_quarterly, ts_tfBoundary_quarterly]
    have := monthStartDay_strict (show now.mi - k * 3 < now.mi - j * 3 by omega)
    unfold dayMs
    omega

theorem tfBoundary_antitone (frame : TimeFrame) (now : JSDate) {j k : ℤ} (h : j ≤ k) :
    ts (tfBoundary frame now k) ≤ ts (tfBoundary frame now j) := by
  rcases eq_or_lt_of_le h with rfl | hlt
  · exact le_refl _
  · exact le_of_lt (tfBoundary_strict frame now hlt)

theorem interval_exists (f : ℤ → ℤ) (P : ℕ) (t : ℤ)
    (h1 : f (P : ℤ) ≤ t) (h2 : t < f 0) :
    ∃ i : ℕ, i < P ∧ f ((i : ℤ) + 1) ≤ t ∧ t < f (i : ℤ) := by
  induction P with
  | zero =>
    push_cast at h1
    omega
  | succ n ih =>
    push_cast at h1
    by_cases hc : f ((n : ℤ)) ≤ t
    · obtain ⟨i, hi, hl, hr⟩ := ih hc
      exact ⟨i, by omega, hl, hr⟩
    · exact ⟨n, by omega, h1, by omega⟩

theorem interval_unique (f : ℤ → ℤ) (hm : ∀ {j k : ℤ}, j < k → f k < f j) (t : ℤ)
    {i j : ℕ} (hi : f ((i : ℤ) + 1) ≤ t ∧ t < f (i : ℤ))
    (hj : f ((j : ℤ) + 1) ≤ t ∧ t < f (j : ℤ)) : i = j := by
  by_contra hne
  have key : ∀ a b : ℕ, a < b → f ((a : ℤ) + 1) ≤ t → t < f (b : ℤ) → False := by
    intro a b hab h1 h2
    have hle : (a : ℤ) + 1 ≤ (b : ℤ) := by exact_mod_cast hab
    rcases eq_or_lt_of_le hle with he | hl
    · rw [← he] at h2
      omega
    · have := hm hl
      omega
  rcases Nat.lt_or_ge i j with h | h
  · exact key i j h hi.1 hj.2
  · exact key j i (by omega) hj.1 hi.2

theorem list_sum_range_ite_unique (P : ℕ) (p : ℕ → Prop) [DecidablePred p] (a : ℚ)
    (hu : ∀ i j, p i → p j → i = j) :
    ((List.range P).map (fun (i : ℕ) => if p i then a else 0)).sum
      = if ∃ i, i < P ∧ p i then a else 0 := by
  induction P with
  | zero =>
    rw [if_neg (by rintro ⟨i, hi, _⟩; omega)]
    simp
  | succ n ih =>
    rw [List.range_succ, List.map_append, List.sum_append, ih]
    simp only [List.map_cons, List.map_nil, List.sum_cons, List.sum_nil, add_zero]
    by_cases hp : p n
    · have h1 : ¬∃ i, i < n ∧ p i := by
        rintro ⟨i, hi, hpi⟩
        have := hu i n hpi hp
        omega
      rw [if_pos hp, if_neg h1, if_pos ⟨n, by omega, hp⟩]
      ring
    · rw [if_neg hp]
      by_cases he : ∃ i, i < n ∧ p i
      · have he' : ∃ i, i < n + 1 ∧ p i := by
          obtain ⟨i, hi, hpi⟩ := he
          exact ⟨i, by omega, hpi⟩
        rw [if_pos he, if_pos he']
        ring
      · have he' : ¬∃ i, i < n + 1 ∧ p i := by
          rintro ⟨i, hi, hpi⟩
          rcases Nat.lt_or_ge i n with h | h
          · exact he ⟨i, h, hpi⟩
          · have hin : i = n := by omega
            exact hp (hin ▸ hpi)
        rw [if_neg he, if_neg he']
        ring

theorem list_sum_range_reflect (P : ℕ) : ∀ f : ℕ → ℚ,
    ((List.range P).map (fun (j : ℕ) => f (P - 1 - j))).sum
      = ((List.range P).map f).sum := by
  induction P with
  | zero => intro f; simp
  | succ n ih =>
    intro f
    conv_lhs => rw [List.range_succ]
    rw [List.map_append, List.sum_append]
    simp only [List.map_cons, List.map_nil, List.sum_cons, List.sum_nil, add_zero,
      Nat.add_sub_cancel, Nat.sub_self]
    have e : (List.range n).map (fun (j : ℕ) => f (n - j))
        = (List.range n).map (fun (j : ℕ) => (fun k => f (k + 1)) (n - 1 - j)) := by
      apply List.map_congr_left
      intro j hj
      have hj' : j < n := List.mem_range.mp hj
      show f (n - j) = f (n - 1 - j + 1)
      congr 1
      omega
    rw [e, ih (fun k => f (k + 1))]
    conv_rhs => rw [List.range_succ_eq_map]
    simp only [List.map_cons, List.sum_cons, List.map_map]
    have ec : f ∘ Nat.succ = fun k => f (k + 1) := rfl
    rw [ec]
    ring

theorem tfPeriod_income (txs : List Transaction) (frame : TimeFrame) (now : JSDate) (i : ℕ) :
    (tfPeriod txs frame now i).income
      = ((txs.filter (fun t =>
          (decide (ts (tfBoundary frame now ((i : ℤ) + 1)) ≤ ts t.date) &&
            decide (ts t.date < ts (tfBoundary frame now (i : ℤ)))) &&
            (t.type == TxType.income))).map (·.amount)).sum := by
  unfold tfPeriod tfPeriodTxs
  dsimp only
  rw [List.filter_filter]
  have hc : ∀ t ∈ txs,
      ((t.type == TxType.income) && (decide (ts (tfBoundary frame now ((i : ℤ) + 1)) ≤ ts t.date)
        && decide (ts t.date < ts (tfBoundary frame now (i : ℤ)))))
        = ((decide (ts (tfBoundary frame now ((i : ℤ) + 1)) ≤ ts t.date)
            && decide (ts t.date < ts (tfBoundary frame now (i : ℤ))))
            && (t.type == TxType.income)) :=
    fun t _ => Bool.and_comm _ _
  rw [List.filter_congr hc]

theorem sum_over_intervals (P : ℕ) (f : ℤ → ℤ) (hm : ∀ {j k : ℤ}, j < k → f k < f j) :
    ∀ txs : List Transaction,
      ((List.range P).map (fun (i : ℕ) =>
        ((txs.filter (fun t => (decide (f ((i : ℤ) + 1) ≤ ts t.date) &&
            decide (ts t.date < f (i : ℤ))) && (t.type == TxType.income))).map
            (·.amount)).sum)).sum
        = ((txs.filter (fun t => decide (f (P : ℤ) ≤ ts t.date) &&
            decide (ts t.date < f 0) && (t.type == TxType.income))).map (·.amount)).sum := by
  intro txs
  induction txs with
  | nil => simp
  | cons t rest ih =>
    have e : ((List.range P).map (fun (i : ℕ) =>
        (((t :: rest).filter (fun t => (decide (f ((i : ℤ) + 1) ≤ ts t.date) &&
            decide (ts t.date < f (i : ℤ))) && (t.type == TxType.income))).map
            (·.amount)).sum))
        = (List.range P).map (fun (i : ℕ) =>
            (if (decide (f ((i : ℤ) + 1) ≤ ts t.date) && decide (ts t.date < f (i : ℤ)))
                && (t.type == TxType.income) then t.amount else 0)
              + ((rest.filter (fun t => (decide (f ((i : ℤ) + 1) ≤ ts t.date) &&
                  decide (ts t.date < f (i : ℤ))) && (t.type == TxType.income))).map
                  (·.amount)).sum) := by
      apply List.map_congr_left
      intro i _
      rw [List.filter_cons]
      cases hc : ((decide (f ((i : ℤ) + 1) ≤ ts t.date) && decide (ts t.date < f (i : ℤ)))
          && (t.type == TxType.income)) with
      | true => simp
      | false => simp
    rw [e, list_sum_map_add, ih, List.filter_cons]
    have hsingle : ((List.range P).map (fun (i : ℕ) =>
        if (decide (f ((i : ℤ) + 1) ≤ ts t.date) && decide (ts t.date < f (i : ℤ)))
            && (t.type == TxType.income) then t.amount else 0)).sum
        = if decide (f (P : ℤ) ≤ ts t.date) && decide (ts t.date < f 0)
            && (t.type == TxType.income) then t.amount else 0 := by
      cases hty : (t.type == TxType.income) with
      | false => simp [hty]
      | true =>
        simp only [hty, Bool.and_true]
        have conv1 : ((List.range P).map (fun (i : ℕ) =>
            if (decide (f ((i : ℤ) + 1) ≤ ts t.date) && decide (ts t.date < f (i : ℤ))) = true
              then t.amount else 0))
            = (List.range P).map (fun (i : ℕ) =>
                if f ((i : ℤ) + 1) ≤ ts t.date ∧ ts t.date < f (i : ℤ) then t.amount else 0) := by
          apply List.map_congr_left
          intro i _
          by_cases hp : f ((i : ℤ) + 1) ≤ ts t.date ∧ ts t.date < f (i : ℤ)
          · rw [if_pos (by simpa using hp), if_pos hp]
          · rw [if_neg (by simpa using hp), if_neg hp]
        rw [conv1, list_sum_range_ite_unique P _ t.amount
          (fun i j hpi hpj => interval_unique f (fun {a b} h => hm h) (ts t.date) hpi hpj)]
        by_cases hwin : f (P : ℤ) ≤ ts t.date ∧ ts t.date < f 0
        · rw [if_pos (interval_exists f P (ts t.date) hwin.1 hwin.2)]
          simp [hwin.1, hwin.2]
        · have hne : ¬∃ i, i < P ∧ f ((i : ℤ) + 1) ≤ ts t.date ∧ ts t.date < f (i : ℤ) := by
            rintro ⟨i, hiP, hl, hr⟩
            apply hwin
            constructor
            · have hle : ((i : ℤ) + 1) ≤ (P : ℤ) := by exact_mod_cast hiP
              rcases eq_or_lt_of_le hle with he | hlt
              · rw [he] at hl
                exact hl
              · exact le_trans (le_of_lt (hm hlt)) hl
            · have h0 : (0 : ℤ) ≤ (i : ℤ) := by omega
              rcases eq_or_lt_of_le h0 with he | hlt
              · rw [← he] at hr
                exact hr
              · exact lt_trans hr (hm hlt)
          rw [if_neg hne]
          have hfb : (decide (f (P : ℤ) ≤ ts t.date) && decide (ts t.date < f 0)) = false := by
            rcases Decidable.em (f (P : ℤ) ≤ ts t.date) with hp | hp
            · have hq : ¬(ts t.date < f 0) := fun hh => hwin ⟨hp, hh⟩
              simp [hq]
            · simp [hp]
          rw [hfb]
          simp
    rw [hsingle]
    cases hc : (decide (f (P : ℤ) ≤ ts t.date) && decide (ts t.date < f 0)
        && (t.type == TxType.income)) with
    | true => simp
    | false => simp

theorem processTransactionData_income_sum (txs : List Transaction) (frame : TimeFrame)
    (now : JSDate) :
    ((processTransactionData txs frame now).map (·.income)).sum
      = tfWindowIncome txs frame now := by
  unfold processTransactionData tfWindowIncome
  rw [List.map_map]
  have e1 : ((fun x => x.income) ∘ fun j => tfPeriod txs frame now (tfPeriods frame - 1 - j))
      = fun (j : ℕ) =>
          (fun i => (tfPeriod txs frame now i).income) (tfPeriods frame - 1 - j) := rfl
  rw [e1]
  have hr := list_sum_range_reflect (tfPeriods frame)
    (fun i => (tfPeriod txs frame now i).income)
  rw [hr]
  have e2 : (List.range (tfPeriods frame)).map
      (fun (i : ℕ) => (tfPeriod txs frame now i).income)
      = (List.range (tfPeriods frame)).map (fun (i : ℕ) =>
          ((txs.filter (fun t =>
            (decide (ts (tfBoundary frame now ((i : ℤ) + 1)) ≤ ts t.date) &&
              decide (ts t.date < ts (tfBoundary frame now (i : ℤ)))) &&
              (t.type == TxType.income))).map (·.amount)).sum) := by
    apply List.map_congr_left
    intro i _
    exact tfPeriod_income txs frame now i
  rw [e2]
  exact sum_over_intervals (tfPeriods frame) (fun k => ts (tfBoundary frame now k))
    (fun {j k} h => tfBoundary_strict frame now h) txs

theorem rdBuckets_income_sum (txs : List Transaction) (rng : TimeRange) (now : JSDate) :
    ((rdBuckets txs rng now).map (·.income)).sum
      = ((txs.filter (fun t =>
          (rdInWindow (rdStartDate now rng) now t.date && (t.type == TxType.income))
            && decide (0 ≤ rdPeriodIndex rng (rdStartDate now rng) t.date)
            && decide (rdPeriodIndex rng (rdStartDate now rng) t.date
                < (periodsOf rng : ℤ)))).map (·.amount)).sum := by
  unfold rdBuckets
  rw [List.map_map]
  have e1 : ((fun x => x.income) ∘ rdBucket txs rng now)
      = fun (i : ℕ) => (rdBucket txs rng now i).income := rfl
  rw [e1]
  have e2 : (List.range (periodsOf rng)).map (fun (i : ℕ) => (rdBucket txs rng now i).income)
      = (List.range (periodsOf rng)).map (fun (i : ℕ) =>
          ((txs.filter (fun t =>
            (rdInWindow (rdStartDate now rng) now t.date && (t.type == TxType.income))
              && (rdPeriodIndex rng (rdStartDate now rng) t.date == (i : ℤ)))).map
              (·.amount)).sum) := by
    apply List.map_congr_left
    intro i _
    exact rdBucket_income txs rng now i
  rw [e2]
  exact sum_over_buckets (periodsOf rng)
    (fun t => rdInWindow (rdStartDate now rng) now t.date && (t.type == TxType.income))
    (fun t => rdPeriodIndex rng (rdStartDate now rng) t.date) txs

/-! ## Currency conversion and formatting (claims C6, C7, C10) -/

/-- C6: for every finite amount `a` and every fixed non-zero exchange rate,
`convert(convert(a, ARS, USD), USD, ARS)` is exactly `a` over the exact
rationals of the model. -/
theorem convert_roundtrip_exact (a r : ℚ) (hr : r ≠ 0) :
    convertAmount (.num (convertAmount (.num (.rat a)) .ARS .USD r)) .USD .ARS r = .rat a := by
  have hinner : convertAmount (.num (.rat a)) .ARS .USD r = .rat (a / r) := by
    simp [convertAmount, toNumber, jsDiv, hr]
  rw [hinner]
  have houter : convertAmount (.num (.rat (a / r))) .USD .ARS r = .rat (a / r * r) := by
    simp [convertAmount, toNumber, jsMul, hr]
  rw [houter, div_mul_cancel₀ a hr]

/-- Witness for `convert_roundtrip_exact` at `a = 5`, `r = 1270`. -/
theorem convert_roundtrip_exact_witness :
    (1270 : ℚ) ≠ 0 ∧
      convertAmount (.num (convertAmount (.num (.rat 5)) .ARS .USD 1270)) .USD .ARS 1270
        = .rat 5 :=
  ⟨by norm_num, convert_roundtrip_exact 5 1270 (by norm_num)⟩

/-- C7: for a string input that does not parse to a number, `convert` returns
the number `0` and `format` returns the string `"0"`; both are total
functions, so no input raises. -/
theorem nonNumeric_degrades (s : String) (h : jsParseFloat s = .nan) :
    (∀ c1 c2 r, convertAmount (.str s) c1 c2 r = .rat 0) ∧
      (∀ st sym, formatAmount st (.str s) sym = "0") := by
  constructor
  · intro c1 c2 r
    simp [convertAmount, toNumber, h]
  · intro st sym
    simp [formatAmount, toNumber, h]

/-- Witness for `nonNumeric_degrades` at the non-numeric string `"abc"`. -/
theorem nonNumeric_degrades_witness :
    jsParseFloat "abc" = .nan ∧
      convertAmount (.str "abc") .ARS .USD 1270 = .rat 0 ∧
      formatAmount ⟨.ARS, 1270⟩ (.str "abc") true = "0" := by
  have h : jsParseFloat "abc" = .nan := by decide
  exact ⟨h, (nonNumeric_degrades "abc" h).1 _ _ _, (nonNumeric_degrades "abc" h).2 _ _⟩

/-- C10: `formatAmount` renders a negative finite amount exactly as it renders
its absolute value — the source formats `Math.abs` of the (converted) amount,
so no sign marker survives. -/
theorem format_drops_sign (st : CurrencyState) (sym : Bool) (a : ℚ) (_ha : a < 0) :
    formatAmount st (.num (.rat a)) sym = formatAmount st (.num (.rat |a|)) sym := by
  have habs :
      jsAbs (if st.currency = .USD ∧ st.exchangeRate ≠ 0 then
          jsDiv (JSNum.rat a) (JSNum.rat st.exchangeRate) else JSNum.rat a)
        = jsAbs (if st.currency = .USD ∧ st.exchangeRate ≠ 0 then
            jsDiv (JSNum.rat |a|) (JSNum.rat st.exchangeRate) else JSNum.rat |a|) := by
    by_cases hc : st.currency = .USD ∧ st.exchangeRate ≠ 0
    · rw [if_pos hc, if_pos hc]
      simp [jsDiv, jsAbs, hc.2, abs_div]
    · rw [if_neg hc, if_neg hc]
      simp [jsAbs]
  simp only [formatAmount, toNumber]
  rw [if_neg (show ¬(JSNum.rat a = JSNum.nan) from by simp),
    if_neg (show ¬(JSNum.rat |a| = JSNum.nan) from by simp)]
  simp only [habs]

/-- Witness for `format_drops_sign` at `a = -5`. -/
theorem format_drops_sign_witness :
    ((-5 : ℚ) < 0) ∧
      formatAmount ⟨.ARS, 1270⟩ (.num (.rat (-5))) true
        = formatAmount ⟨.ARS, 1270⟩ (.num (.rat |(-5 : ℚ)|)) true :=
  ⟨by norm_num, format_drops_sign _ _ _ (by norm_num)⟩

/-! ## Chart scale (claim C8) -/

theorem le_maxAbsValue_iff (c : ℚ) (l : List ℚ) :
    ((c : WithBot ℚ) ≤ maxAbsValue l) ↔ ∃ v ∈ l, c ≤ |v| := by
  unfold maxAbsValue
  induction l with
  | nil => simp
  | cons x xs ih =>
    simp only [List.map_cons, List.foldr_cons, le_max_iff, ih, List.mem_cons]
    constructor
    · rintro (h | ⟨v, hv, hc⟩)
      · exact ⟨x, Or.inl rfl, by exact_mod_cast h⟩
      · exact ⟨v, Or.inr hv, hc⟩
    · rintro ⟨v, rfl | hv, hc⟩
      · left; exact_mod_cast hc
      · right; exact ⟨v, hv, hc⟩

/-- C8: `determineScale` returns `millions` exactly when some value has
absolute value at least one million, `thousands` exactly when some value
reaches one thousand but none reaches one million, and `units` otherwise; in
particular the empty list yields `units`. -/
theorem determineScale_spec (values : List ℚ) :
    (determineScale values = .millions ↔ ∃ v ∈ values, 1000000 ≤ |v|) ∧
      (determineScale values = .thousands ↔
        ((∃ v ∈ values, 1000 ≤ |v|) ∧ ¬∃ v ∈ values, 1000000 ≤ |v|)) ∧
      (determineScale values = .units ↔ ¬∃ v ∈ values, 1000 ≤ |v|) ∧
      determineScale [] = .units := by
  have h6 := le_maxAbsValue_iff 1000000 values
  have h3 := le_maxAbsValue_iff 1000 values
  have himp : (∃ v ∈ values, (1000000 : ℚ) ≤ |v|) → ∃ v ∈ values, (1000 : ℚ) ≤ |v| := by
    rintro ⟨v, hv, h⟩
    exact ⟨v, hv, by linarith⟩
  have hempty : determineScale ([] : List ℚ) = .units := by
    simp [determineScale, maxAbsValue]
  have key : (determineScale values = .millions ↔ ∃ v ∈ values, 1000000 ≤ |v|) ∧
      (determineScale values = .thousands ↔
        ((∃ v ∈ values, 1000 ≤ |v|) ∧ ¬∃ v ∈ values, 1000000 ≤ |v|)) ∧
      (determineScale values = .units ↔ ¬∃ v ∈ values, 1000 ≤ |v|) := by
    unfold determineScale
    split_ifs with hA hB
    · rw [h6] at hA
      exact ⟨iff_of_true rfl hA, iff_of_false (by decide) (fun h => h.2 hA),
        iff_of_false (by decide) (fun h => h (himp hA))⟩
    · rw [h6] at hA
      rw [h3] at hB
      exact ⟨iff_of_false (by decide) hA, iff_of_true rfl ⟨hB, hA⟩,
        iff_of_false (by decide) (fun h => h hB)⟩
    · rw [h6] at hA
      rw [h3] at hB
      exact ⟨iff_of_false (by decide) hA, iff_of_false (by decide) (fun h => hB h.1),
        iff_of_true rfl hB⟩
  exact ⟨key.1, key.2.1, key.2.2, hempty⟩

/-! ## Trend detection (claim C9) -/

/-- C9: `detectCashFlowTrends` emits nothing for fewer than 3 entries; for a
series whose net flows end in `…, a, b, c` it emits the high-priority alert
exactly when `a > b > c` and the medium-priority opportunity exactly when
`a < b < c`, and nothing when neither holds. -/
theorem detectCashFlowTrends_spec (d : List CashFlowProjection) :
    (d.length < 3 → detectCashFlowTrends d = []) ∧
      (∀ (pre : List ℚ) (a b c : ℚ), d.map (·.netFlow) = pre ++ [a, b, c] →
        (((⟨"trend-decreasing", .alert, .high⟩ : SmartInsight) ∈ detectCashFlowTrends d) ↔
            (b < a ∧ c < b)) ∧
          (((⟨"trend-increasing", .opportunity, .medium⟩ : SmartInsight) ∈
              detectCashFlowTrends d) ↔ (a < b ∧ b < c)) ∧
          (¬(b < a ∧ c < b) → ¬(a < b ∧ b < c) → detectCashFlowTrends d = [])) := by
  constructor
  · intro hshort
    unfold detectCashFlowTrends
    rw [if_pos hshort]
  · intro pre a b c h
    have hlen : d.length = pre.length + 3 := by
      have := congrArg List.length h
      simpa using this
    have hnf : lastThree (d.map (·.netFlow)) = [a, b, c] := by
      unfold lastThree
      rw [h]
      have e : (pre ++ [a, b, c]).length - 3 = pre.length := by simp
      rw [e, List.drop_left]
    simp only [detectCashFlowTrends]
    rw [if_neg (by omega), hnf]
    have hdec : strictlyDecreasing [a, b, c] = (decide (b < a) && decide (c < b)) := by
      simp [strictlyDecreasing]
    have hinc : strictlyIncreasing [a, b, c] = (decide (a < b) && decide (b < c)) := by
      simp [strictlyIncreasing]
    rw [hdec, hinc]
    have hne1 : (⟨"trend-decreasing", .alert, .high⟩ : SmartInsight)
        ≠ ⟨"trend-increasing", .opportunity, .medium⟩ := by decide
    simp only [Bool.and_eq_true, decide_eq_true_eq]
    by_cases hd : b < a ∧ c < b
    · rw [if_pos hd]
      refine ⟨iff_of_true (by simp) hd, iff_of_false ?_ ?_, fun hx _ => absurd hd hx⟩
      · intro hmem
        rw [List.mem_singleton] at hmem
        exact hne1 hmem.symm
      · rintro ⟨h3, h4⟩
        rcases hd with ⟨h1, h2⟩
        linarith
    · rw [if_neg hd]
      by_cases hi : a < b ∧ b < c
      · rw [if_pos hi]
        refine ⟨iff_of_false ?_ hd, iff_of_true (by simp) hi, fun _ hx => absurd hi hx⟩
        intro hmem
        rw [List.mem_singleton] at hmem
        exact hne1 hmem
      · rw [if_neg hi]
        exact ⟨iff_of_false (by simp) hd, iff_of_false (by simp) hi, fun _ _ => rfl⟩

/-- Witness for `detectCashFlowTrends_spec`: net flows `3, 2, 1` emit the
high-priority alert. -/
theorem detectCashFlowTrends_spec_witness :
    (⟨"trend-decreasing", .alert, .high⟩ : SmartInsight) ∈
      detectCashFlowTrends
        [⟨⟨0, 1, 0⟩, 0, 0, 3⟩, ⟨⟨0, 1, 0⟩, 0, 0, 2⟩, ⟨⟨0, 1, 0⟩, 0, 0, 1⟩] :=
  ((detectCashFlowTrends_spec
      [⟨⟨0, 1, 0⟩, 0, 0, 3⟩, ⟨⟨0, 1, 0⟩, 0, 0, 2⟩, ⟨⟨0, 1, 0⟩, 0, 0, 1⟩]).2 [] 3 2 1
      (by rfl)).1.mpr ⟨by norm_num, by norm_num⟩

/-! ## Per-user route authorization (claim C5) -/

/-- C5 counterexample: a request with no token at all receives the
transaction data of any `:userId` with status 200 (not 401), a request with a
valid token of a *different* user also receives it with 200, and an invalid
token on the notifications route yields 403 rather than 401. -/
theorem routes_claim_counterexample :
    (getTransactionsRoute .missing "alice").status = 200 ∧
      getTransactionsRoute (.valid "mallory") "alice" = ⟨200, some "alice"⟩ ∧
      getNotificationsRoute .invalid "alice" = ⟨403, none⟩ :=
  ⟨rfl, rfl, rfl⟩

/-- C5 (amended): only the notifications route enforces authentication —
401 for a missing token, 403 for an invalid token, 403 for a valid token of a
different user, 200 exactly for the owner; the transactions, dashboard and
AI-insight GET routes use `optionalAuth` and serve the requested user's data
with 200 regardless of the token. -/
theorem routes_auth_spec (t : TokenState) (u : String) :
    (t = .missing → getNotificationsRoute t u = ⟨401, none⟩) ∧
      (t = .invalid → getNotificationsRoute t u = ⟨403, none⟩) ∧
      (∀ v, t = .valid v → v ≠ u → getNotificationsRoute t u = ⟨403, none⟩) ∧
      (getNotificationsRoute t u = ⟨200, some u⟩ ↔ t = .valid u) ∧
      getTransactionsRoute t u = ⟨200, some u⟩ ∧
      getDashboardRoute t u = ⟨200, some u⟩ ∧
      getAiInsightsRoute t u = ⟨200, some u⟩ := by
  cases t with
  | missing =>
    refine ⟨fun _ => rfl, by simp, by simp, ?_, rfl, rfl, rfl⟩
    simp [getNotificationsRoute, runAuthenticateToken, ApiResponse.mk.injEq]
  | invalid =>
    refine ⟨by simp, fun _ => rfl, by simp, ?_, rfl, rfl, rfl⟩
    simp [getNotificationsRoute, runAuthenticateToken, ApiResponse.mk.injEq]
  | valid v =>
    by_cases hv : v = u
    · subst hv
      refine ⟨by simp, by simp, ?_, ?_, rfl, rfl, rfl⟩
      · intro w hw hne
        injection hw with h
        exact (hne h.symm).elim
      · simp [getNotificationsRoute, runAuthenticateToken]
    · refine ⟨by simp, by simp, ?_, ?_, rfl, rfl, rfl⟩
      · intro w hw hne
        injection hw with h
        subst h
        simp [getNotificationsRoute, runAuthenticateToken, hne]
      · apply iff_of_false
        · simp [getNotificationsRoute, runAuthenticateToken, hv, ApiResponse.mk.injEq]
        · simp [hv]

/-- Witness for `routes_auth_spec`: missing token on notifications is 401. -/
theorem routes_auth_spec_witness : getNotificationsRoute .missing "alice" = ⟨401, none⟩ :=
  (routes_auth_spec .missing "alice").1 rfl

/-! ## Projection metrics (claims C1, C4) -/

/-- C1: for non-empty data the risk level is `high` exactly when the computed
worst case is negative and the net projected flow is below twice the average
historical income; of the remaining cases it is `low` exactly when the net
flow exceeds six times the average income, and `medium` otherwise; in
particular a worst case of exactly 0 with net flow at least twice the
average income is never classified `high`. -/
theorem riskLevel_spec (data : List CashFlowProjection) (scenario : Scenario) (months : ℕ)
    (h : data ≠ []) :
    ((calculateProjectionMetrics data scenario months).riskLevel = .high ↔
        ((calculateProjectionMetrics data scenario months).worstCaseScenario < 0 ∧
          (calculateProjectionMetrics data scenario months).netProjectedFlow
            < avgIncomeOf data * 2)) ∧
      ((calculateProjectionMetrics data scenario months).riskLevel = .low ↔
        (¬((calculateProjectionMetrics data scenario months).worstCaseScenario < 0 ∧
            (calculateProjectionMetrics data scenario months).netProjectedFlow
              < avgIncomeOf data * 2) ∧
          (calculateProjectionMetrics data scenario months).netProjectedFlow
            > avgIncomeOf data * 6)) ∧
      ((calculateProjectionMetrics data scenario months).riskLevel = .medium ↔
        (¬((calculateProjectionMetrics data scenario months).worstCaseScenario < 0 ∧
            (calculateProjectionMetrics data scenario months).netProjectedFlow
              < avgIncomeOf data * 2) ∧
          ¬((calculateProjectionMetrics data scenario months).netProjectedFlow
            > avgIncomeOf data * 6))) ∧
      ((calculateProjectionMetrics data scenario months).worstCaseScenario = 0 →
        avgIncomeOf data * 2 ≤ (calculateProjectionMetrics data scenario months).netProjectedFlow →
        (calculateProjectionMetrics data scenario months).riskLevel ≠ .high) := by
  have hne : ¬(data.isEmpty = true) := by simpa [List.isEmpty_iff] using h
  unfold calculateProjectionMetrics
  rw [if_neg hne]
  dsimp only
  unfold riskOf
  split_ifs with hH hL
  · exact ⟨iff_of_true rfl hH, iff_of_false (by decide) (fun hc => hc.1 hH),
      iff_of_false (by decide) (fun hc => hc.1 hH),
      fun h0 _ => absurd hH.1 (by rw [h0]; exact lt_irrefl 0)⟩
  · exact ⟨iff_of_false (by decide) hH, iff_of_true rfl ⟨hH, hL⟩,
      iff_of_false (by decide) (fun hc => hc.2 hL), fun _ _ => by decide⟩
  · exact ⟨iff_of_false (by decide) hH, iff_of_false (by decide) (fun hc => hL hc.2),
      iff_of_true rfl ⟨hH, hL⟩, fun _ _ => by decide⟩

/-- Witness for `riskLevel_spec`: one month of income 100 / expenses 50 under
the all-zero scenario over 6 months is classified `medium`. -/
theorem riskLevel_spec_witness :
    (calculateProjectionMetrics [⟨⟨0, 1, 0⟩, 100, 50, 50⟩] ⟨"base", 0, 0, 0, 0, 0, 0⟩ 6).riskLevel
      = .medium :=
  (riskLevel_spec [⟨⟨0, 1, 0⟩, 100, 50, 50⟩] ⟨"base", 0, 0, 0, 0, 0, 0⟩ 6
      (by simp)).2.2.1.mpr
    ⟨by
      norm_num [calculateProjectionMetrics, worstCaseOf, netFlowOf, totalIncomeOf,
        totalExpensesOf, projIncomeOf, projExpensesOf, monthlyNetFlowOf, varianceOf,
        avgIncomeOf, avgExpensesOf],
      by
      norm_num [calculateProjectionMetrics, netFlowOf, totalIncomeOf, totalExpensesOf,
        projIncomeOf, projExpensesOf, avgIncomeOf, avgExpensesOf]⟩

theorem calculateModifiedDataAux_length (s : Scenario) :
    ∀ (l : List CashFlowProjection) (n : ℕ), (calculateModifiedDataAux s l n).length = l.length := by
  intro l
  induction l with
  | nil => intro n; rfl
  | cons x xs ih =>
    intro n
    simp [calculateModifiedDataAux, ih]

theorem calculateModifiedDataAux_getElem (s : Scenario) :
    ∀ (l : List CashFlowProjection) (n i : ℕ) (hi : i < l.length),
      (calculateModifiedDataAux s l n)[i]? =
        some ⟨(l.get ⟨i, hi⟩).date,
          (l.get ⟨i, hi⟩).projectedIncome * (1 + s.incomeGrowth / 100)
            + (if n + i = 0 then s.oneTimeIncome else 0),
          (l.get ⟨i, hi⟩).projectedExpenses * (1 - s.expenseReduction / 100)
            + (if n + i = 0 then s.oneTimeExpense else 0),
          ((l.get ⟨i, hi⟩).projectedIncome * (1 + s.incomeGrowth / 100)
            + (if n + i = 0 then s.oneTimeIncome else 0))
            - ((l.get ⟨i, hi⟩).projectedExpenses * (1 - s.expenseReduction / 100)
              + (if n + i = 0 then s.oneTimeExpense else 0))⟩ := by
  intro l
  induction l with
  | nil =>
    intro n i hi
    exact absurd hi (by simp)
  | cons x xs ih =>
    intro n i hi
    cases i with
    | zero =>
      simp only [calculateModifiedDataAux, List.getElem?_cons_zero, List.get]
      by_cases hn : n = 0 <;> simp [hn]
    | succ j =>
      simp only [calculateModifiedDataAux, List.getElem?_cons_succ, List.get]
      rw [ih (n + 1) j (by simpa using hi)]
      have e : n + 1 + j = n + (j + 1) := by omega
      rw [e]

theorem calculateModifiedDataAux_identity (s : Scenario) (h1 : s.incomeGrowth = 0)
    (h2 : s.expenseReduction = 0) (h3 : s.oneTimeIncome = 0) (h4 : s.oneTimeExpense = 0) :
    ∀ (l : List CashFlowProjection) (n : ℕ),
      calculateModifiedDataAux s l n
        = l.map (fun p => ⟨p.date, p.projectedIncome, p.projectedExpenses,
            p.projectedIncome - p.projectedExpenses⟩) := by
  intro l
  induction l with
  | nil => intro n; rfl
  | cons x xs ih =>
    intro n
    simp [calculateModifiedDataAux, ih, h1, h2, h3, h4]

/-- C4: scenario application.  For non-empty data the total projected income
is `avg·(1 + incomeGrowth/100)·(1 + marketGrowth/100)·months` plus the
one-time income added once (dually for expenses); the per-bucket modification
multiplies each entry by the percentage factors and adds the one-time amounts
only at index 0 (recomputing the net flow); and the all-zero scenario
reproduces the unmodified historical averages. -/
theorem scenario_application_spec (data : List CashFlowProjection) (s : Scenario) (months : ℕ)
    (h : data ≠ []) :
    (calculateProjectionMetrics data s months).totalProjectedIncome
        = avgIncomeOf data * (1 + s.incomeGrowth / 100) * (1 + s.marketGrowth / 100) * months
          + s.oneTimeIncome ∧
      (calculateProjectionMetrics data s months).totalProjectedExpenses
        = avgExpensesOf data * (1 - s.expenseReduction / 100) * (1 + s.inflationRate / 100 / 12)
          * months + s.oneTimeExpense ∧
      (calculateModifiedData data s).length = data.length ∧
      (∀ i (hi : i < data.length),
        (calculateModifiedData data s)[i]? =
          some ⟨(data.get ⟨i, hi⟩).date,
            (data.get ⟨i, hi⟩).projectedIncome * (1 + s.incomeGrowth / 100)
              + (if i = 0 then s.oneTimeIncome else 0),
            (data.get ⟨i, hi⟩).projectedExpenses * (1 - s.expenseReduction / 100)
              + (if i = 0 then s.oneTimeExpense else 0),
            ((data.get ⟨i, hi⟩).projectedIncome * (1 + s.incomeGrowth / 100)
              + (if i = 0 then s.oneTimeIncome else 0))
              - ((data.get ⟨i, hi⟩).projectedExpenses * (1 - s.expenseReduction / 100)
                + (if i = 0 then s.oneTimeExpense else 0))⟩) ∧
      (s.incomeGrowth = 0 → s.expenseReduction = 0 → s.marketGrowth = 0 → s.inflationRate = 0 →
        s.oneTimeIncome = 0 → s.oneTimeExpense = 0 →
        (calculateProjectionMetrics data s months).totalProjectedIncome
            = avgIncomeOf data * months ∧
          (calculateProjectionMetrics data s months).totalProjectedExpenses
            = avgExpensesOf data * months ∧
          (calculateProjectionMetrics data s months).averageMonthlyFlow
            = avgIncomeOf data - avgExpensesOf data ∧
          calculateModifiedData data s
            = data.map (fun p => ⟨p.date, p.projectedIncome, p.projectedExpenses,
                p.projectedIncome - p.projectedExpenses⟩)) := by
  have hne : ¬(data.isEmpty = true) := by simpa [List.isEmpty_iff] using h
  have hm : calculateProjectionMetrics data s months
      = ⟨totalIncomeOf data s months, totalExpensesOf data s months, netFlowOf data s months,
        worstCaseOf data s months, bestCaseOf data s months, monthlyNetFlowOf data s,
        breakEvenOf data s, riskOf data s months⟩ := by
    unfold calculateProjectionMetrics
    rw [if_neg hne]
  refine ⟨?_, ?_, ?_, ?_, ?_⟩
  · rw [hm]
    rfl
  · rw [hm]
    rfl
  · exact calculateModifiedDataAux_length s data 0
  · intro i hi
    have hg := calculateModifiedDataAux_getElem s data 0 i hi
    simpa using hg
  · intro z1 z2 z3 z4 z5 z6
    refine ⟨?_, ?_, ?_, calculateModifiedDataAux_identity s z1 z2 z5 z6 data 0⟩
    · rw [hm]
      show totalIncomeOf data s months = _
      unfold totalIncomeOf projIncomeOf
      rw [z1, z3, z5]
      ring
    · rw [hm]
      show totalExpensesOf data s months = _
      unfold totalExpensesOf projExpensesOf
      rw [z2, z4, z6]
      ring
    · rw [hm]
      show monthlyNetFlowOf data s = _
      unfold monthlyNetFlowOf projIncomeOf projExpensesOf
      rw [z1, z2, z3, z4]
      ring

/-- Witness for `scenario_application_spec` at one data entry, scenario
(+10% income, −5% expenses, one-time 7/3, +2% market, 12% inflation),
6 months. -/
theorem scenario_application_spec_witness :
    (calculateProjectionMetrics [⟨⟨0, 1, 0⟩, 100, 50, 50⟩]
        ⟨"x", 10, 5, 7, 3, 2, 12⟩ 6).totalProjectedIncome
      = avgIncomeOf [⟨⟨0, 1, 0⟩, 100, 50, 50⟩] * (1 + (10 : ℚ) / 100) * (1 + (2 : ℚ) / 100)
          * ((6 : ℕ) : ℚ) + 7 :=
  (scenario_application_spec [⟨⟨0, 1, 0⟩, 100, 50, 50⟩] ⟨"x", 10, 5, 7, 3, 2, 12⟩ 6
    (by simp)).1

/-! ## Determinism of the projection pipeline (claim C2) -/

/-- C2 counterexample: the future-projection step multiplies the historical
averages by `1 + (Math.random() - 0.5) * 0.1`, so two runs of the pipeline on
the same single-transaction input differ — both in the generated projection
list and in the metrics computed from it — when the random draws differ
(here: draws of 0.5 versus draws of 0). -/
theorem pipeline_rng_counterexample :
    generateProjectionsFromTransactions [⟨100, .income, ⟨12012, 10, 0⟩⟩] (fun _ => 1 / 2)
        ≠ generateProjectionsFromTransactions [⟨100, .income, ⟨12012, 10, 0⟩⟩] (fun _ => 0) ∧
      calculateProjectionMetrics
          (generateProjectionsFromTransactions [⟨100, .income, ⟨12012, 10, 0⟩⟩] (fun _ => 1 / 2))
          ⟨"base", 0, 0, 0, 0, 0, 0⟩ 6
        ≠ calculateProjectionMetrics
            (generateProjectionsFromTransactions [⟨100, .income, ⟨12012, 10, 0⟩⟩] (fun _ => 0))
            ⟨"base", 0, 0, 0, 0, 0, 0⟩ 6 := by
  have e1 : generateProjectionsFromTransactions [⟨100, .income, ⟨12012, 10, 0⟩⟩] (fun _ => 1 / 2)
      = [⟨⟨12012, 1, 0⟩, 100, 0, 100⟩, ⟨⟨12013, 1, 0⟩, 100, 0, 100⟩,
          ⟨⟨12014, 1, 0⟩, 100, 0, 100⟩, ⟨⟨12015, 1, 0⟩, 100, 0, 100⟩,
          ⟨⟨12016, 1, 0⟩, 100, 0, 100⟩, ⟨⟨12017, 1, 0⟩, 100, 0, 100⟩,
          ⟨⟨12018, 1, 0⟩, 100, 0, 100⟩] := by
    norm_num [generateProjectionsFromTransactions, sortedMonths, insertSortedDistinct,
      histEntry, monthIncome, monthExpenses, jsSetMonth, jsGetMonth, yearOf, monthInYear,
      mkDate_day_one, List.range_succ]
  have e2 : generateProjectionsFromTransactions [⟨100, .income, ⟨12012, 10, 0⟩⟩] (fun _ => 0)
      = [⟨⟨12012, 1, 0⟩, 100, 0, 100⟩, ⟨⟨12013, 1, 0⟩, 95, 0, 95⟩,
          ⟨⟨12014, 1, 0⟩, 95, 0, 95⟩, ⟨⟨12015, 1, 0⟩, 95, 0, 95⟩,
          ⟨⟨12016, 1, 0⟩, 95, 0, 95⟩, ⟨⟨12017, 1, 0⟩, 95, 0, 95⟩,
          ⟨⟨12018, 1, 0⟩, 95, 0, 95⟩] := by
    norm_num [generateProjectionsFromTransactions, sortedMonths, insertSortedDistinct,
      histEntry, monthIncome, monthExpenses, jsSetMonth, jsGetMonth, yearOf, monthInYear,
      mkDate_day_one, List.range_succ]
  constructor
  · rw [e1, e2]
    intro h
    have hf := congrArg (fun l => l[1]?.map (fun p => p.projectedIncome)) h
    norm_num at hf
  · intro h
    have hf := congrArg ProjectionMetrics.totalProjectedIncome h
    rw [e1, e2] at hf
    norm_num [calculateProjectionMetrics, totalIncomeOf, projIncomeOf, avgIncomeOf] at hf

/-- C2 (amended): the historical monthly-aggregation prefix of
`generateProjectionsFromTransactions` is a pure function of the transaction
set — it does not depend on the random stream; only the 6 appended future
entries do. -/
theorem generateProjections_prefix_rng_independent (txs : List Transaction)
    (rng1 rng2 : ℕ → ℚ) :
    (generateProjectionsFromTransactions txs rng1).take (sortedMonths txs).length
      = (generateProjectionsFromTransactions txs rng2).take (sortedMonths txs).length := by
  simp only [generateProjectionsFromTransactions]
  by_cases he : txs.isEmpty
  · rw [if_pos he, if_pos he]
  · rw [if_neg he, if_neg he]
    cases hl : ((sortedMonths txs).map (histEntry txs)).getLast? with
    | none => rfl
    | some lastEntry =>
      have hlen : (sortedMonths txs).length
          = ((sortedMonths txs).map (histEntry txs)).length := (List.length_map _ _).symm
      rw [hlen, List.take_left, List.take_left]

/-! ## Bucketing as a partition (claim C3) -/

/-- C3 counterexample: in the daily range, a transaction dated exactly `now`
passes the window filter (`startDate ≤ date ≤ now`) but is assigned period
index 30, outside `0 ≤ i < 30`, so it lands in no bucket: every bucket income
is zero while the filtered window income is 100. -/
theorem bucketing_claim_counterexample :
    rdInWindow (rdStartDate ⟨12012, 15, 0⟩ .daily) ⟨12012, 15, 0⟩ ⟨12012, 15, 0⟩ = true ∧
      rdPeriodIndex .daily (rdStartDate ⟨12012, 15, 0⟩ .daily) ⟨12012, 15, 0⟩ = 30 ∧
      ((rdBuckets [⟨100, .income, ⟨12012, 15, 0⟩⟩] .daily ⟨12012, 15, 0⟩).map (·.income)).sum
        = 0 ∧
      rdWindowIncome [⟨100, .income, ⟨12012, 15, 0⟩⟩] (rdStartDate ⟨12012, 15, 0⟩ .daily)
        ⟨12012, 15, 0⟩ = 100 := by
  refine ⟨by decide, by decide, ?_, ?_⟩
  · have hb : (rdBuckets [⟨100, .income, ⟨12012, 15, 0⟩⟩] .daily ⟨12012, 15, 0⟩).map (·.income)
        = List.replicate 30 (0 : ℚ) := by decide
    rw [hb]
    simp
  · have hf : ([⟨100, .income, ⟨12012, 15, 0⟩⟩] : List Transaction).filter
        (fun t => rdInWindow (rdStartDate ⟨12012, 15, 0⟩ .daily) ⟨12012, 15, 0⟩ t.date
          && t.type == TxType.income) = [⟨100, .income, ⟨12012, 15, 0⟩⟩] := by decide
    unfold rdWindowIncome
    rw [hf]
    simp

/-- C3 (amended): for every transaction list, valid `now` and period type,
both bucketings produce one aggregate per period (periods with no
transactions are present with zero totals); every transaction in the
*effective* window is counted in exactly one bucket; and the per-bucket
incomes sum to the income over the effective window.  The effective window is
`[startDate, now]` for the month/year ranges, but only `[startDate, now)` for
the day/week ranges (a transaction dated exactly `now` is filtered in and
then dropped), and `[now − periods·width, now)` for the
`processTransactionData` frames. -/
theorem bucketing_partition_spec (txs : List Transaction) (now : JSDate)
    (hnow : ValidDate now) (htx : ∀ t ∈ txs, ValidDate t.date) :
    (∀ rng : TimeRange, (rdBuckets txs rng now).length = periodsOf rng) ∧
      (∀ (rng : TimeRange) (i : ℕ), rdBucket ([] : List Transaction) rng now i = ⟨0, 0⟩) ∧
      (∀ rng : TimeRange, ∀ t ∈ txs, rdEffWindow rng now t.date = true →
        ∃! i : ℕ, i < periodsOf rng ∧
          rdInWindow (rdStartDate now rng) now t.date = true ∧
          rdPeriodIndex rng (rdStartDate now rng) t.date = (i : ℤ)) ∧
      (∀ rng : TimeRange, ((rdBuckets txs rng now).map (·.income)).sum
        = ((txs.filter (fun t => rdEffWindow rng now t.date && (t.type == TxType.income))).map
            (·.amount)).sum) ∧
      (∀ frame : TimeFrame, (processTransactionData txs frame now).length = tfPeriods frame) ∧
      (∀ (frame : TimeFrame) (i : ℕ),
        tfPeriod ([] : List Transaction) frame now i = ⟨0, 0, 0⟩) ∧
      (∀ frame : TimeFrame, ∀ t ∈ txs,
        ts (tfBoundary frame now (tfPeriods frame : ℤ)) ≤ ts t.date →
        ts t.date < ts (tfBoundary frame now 0) →
        ∃! i : ℕ, i < tfPeriods frame ∧
          ts (tfBoundary frame now ((i : ℤ) + 1)) ≤ ts t.date ∧
          ts t.date < ts (tfBoundary frame now (i : ℤ))) ∧
      (∀ frame : TimeFrame, ((processTransactionData txs frame now).map (·.income)).sum
        = tfWindowIncome txs frame now) := by
  refine ⟨?_, ?_, ?_, ?_, ?_, ?_, ?_, ?_⟩
  · intro rng
    simp [rdBuckets]
  · intro rng i
    rfl
  · intro rng t ht hw
    obtain ⟨h1, h2, h3⟩ := (rdCounted_iff rng now hnow t.date (htx t ht)).mpr hw
    refine ⟨(rdPeriodIndex rng (rdStartDate now rng) t.date).toNat,
      ⟨by omega, h1, by omega⟩, ?_⟩
    rintro j ⟨hj1, hj2, hj3⟩
    omega
  · intro rng
    rw [rdBuckets_income_sum]
    have hcg : ∀ t ∈ txs,
        ((rdInWindow (rdStartDate now rng) now t.date && (t.type == TxType.income))
          && decide (0 ≤ rdPeriodIndex rng (rdStartDate now rng) t.date)
          && decide (rdPeriodIndex rng (rdStartDate now rng) t.date < (periodsOf rng : ℤ)))
          = (rdEffWindow rng now t.date && (t.type == TxType.income)) := by
      intro t ht
      have hiff := rdCounted_iff rng now hnow t.date (htx t ht)
      cases hty : (t.type == TxType.income) with
      | false => simp [hty]
      | true =>
        simp only [hty, Bool.and_true]
        cases hA : (rdInWindow (rdStartDate now rng) now t.date
            && decide (0 ≤ rdPeriodIndex rng (rdStartDate now rng) t.date)
            && decide (rdPeriodIndex rng (rdStartDate now rng) t.date
                < (periodsOf rng : ℤ))) with
        | true =>
          simp only [Bool.and_eq_true, decide_eq_true_eq] at hA
          exact (hiff.mp ⟨hA.1.1, hA.1.2, hA.2⟩).symm
        | false =>
          cases hB : rdEffWindow rng now t.date with
          | false => rfl
          | true =>
            obtain ⟨b1, b2, b3⟩ := hiff.mpr hB
            simp [b1, b2, b3] at hA
    rw [List.filter_congr hcg]
  · intro frame
    simp [processTransactionData]
  · intro frame i
    simp [tfPeriod, tfPeriodTxs]
  · intro frame t ht h1 h2
    obtain ⟨i, hi, hl, hr⟩ := interval_exists (fun k => ts (tfBoundary frame now k))
      (tfPeriods frame) (ts t.date) h1 h2
    refine ⟨i, ⟨hi, hl, hr⟩, ?_⟩
    rintro j ⟨hj, hjl, hjr⟩
    exact interval_unique (fun k => ts (tfBoundary frame now k))
      (fun {a b} h => tfBoundary_strict frame now h) (ts t.date) ⟨hjl, hjr⟩ ⟨hl, hr⟩
  · intro frame
    exact processTransactionData_income_sum txs frame now

/-- Witness for `bucketing_partition_spec` at a concrete date and a single
January-year-1001 income transaction. -/
theorem bucketing_partition_spec_witness :
    (rdBuckets [⟨100, .income, ⟨12012, 14, 0⟩⟩] .daily ⟨12012, 15, 0⟩).length = 30 ∧
      ((processTransactionData [⟨100, .income, ⟨12012, 14, 0⟩⟩] .weekly
          ⟨12012, 15, 0⟩).map (·.income)).sum
        = tfWindowIncome [⟨100, .income, ⟨12012, 14, 0⟩⟩] .weekly ⟨12012, 15, 0⟩ :=
  ⟨(bucketing_partition_spec [⟨100, .income, ⟨12012, 14, 0⟩⟩] ⟨12012, 15, 0⟩
      (by unfold ValidDate; decide) (by unfold ValidDate; decide)).1 .daily,
    (bucketing_partition_spec [⟨100, .income, ⟨12012, 14, 0⟩⟩] ⟨12012, 15, 0⟩
      (by unfold ValidDate; decide) (by unfold ValidDate; decide)).2.2.2.2.2.2.2 .weekly⟩

end FinPyme
